import Mathlib

/-!
# NES core: cartridge mappers, system RAM, CPU bus and addressing modes

A shallow embedding of `nes/mapper.cpp`, `nes/mem.cpp`, `nes/cpu.h` and `src/rom.h`.

Conventions of the embedding.

* Machine integers (`u8`, `u16`, `u32`, `int`) are natural numbers or integers; a
  truncation to `w` bits is written `% 2 ^ w` at the places where the C++ value
  can leave its type.
* A `std::vector<u8>` is a `List Nat`.  `operator[]` outside the vector is
  undefined behaviour in C++; a read there is `none`, and so is a write.
* Mutable objects are passed explicitly: a member function that changes the
  object returns the new object.
-/

namespace Nes

/-! ## rom.h -/

/-- Size of one PRG-ROM bank, `const u32 PRG_ROM_BANK_SIZE`. -/
def PRG_ROM_BANK_SIZE : Nat := 0x4000

/-- Size of one PRG-RAM unit, `const u32 PRG_RAM_UNIT_SIZE`. -/
def PRG_RAM_UNIT_SIZE : Nat := 0x2000

/-- Size of one CHR-ROM bank, `const u32 CHR_ROM_BANK_SIZE`. -/
def CHR_ROM_BANK_SIZE : Nat := 0x2000

/-- Name-table mirroring, `enum class NameTableMirroring : u8`. -/
inductive NameTableMirroring where
  | SingleScreenUpper
  | SingleScreenLower
  | Vertical
  | Horizontal
deriving DecidableEq, Repr

/-- The 16 bytes of `struct INesHeader`, in declaration order (all `u8`, so the struct has
no padding).  The arrays `magic[4]` and `zero[5]` are spelled out byte by byte as
`magic0 .. magic3` and `zero0 .. zero4`.  A header written with the size and flag
fields alone has the `NES\x1a` magic and zeroes elsewhere. -/
structure INesHeader where
  magic0 : Nat := 0x4E
  magic1 : Nat := 0x45
  magic2 : Nat := 0x53
  magic3 : Nat := 0x1A
  PrgRomSize : Nat
  ChrRomSize : Nat
  flags6 : Nat
  flags7 : Nat
  PrgRamSize : Nat
  flags9 : Nat := 0
  flags10 : Nat := 0
  zero0 : Nat := 0
  zero1 : Nat := 0
  zero2 : Nat := 0
  zero3 : Nat := 0
  zero4 : Nat := 0
deriving DecidableEq, Repr

/-- The header seen as `(char*)this`: its 16 bytes in memory order. -/
def INesHeader.bytes (h : INesHeader) : List Nat :=
  [h.magic0, h.magic1, h.magic2, h.magic3, h.PrgRomSize, h.ChrRomSize, h.flags6, h.flags7,
   h.PrgRamSize, h.flags9, h.flags10, h.zero0, h.zero1, h.zero2, h.zero3, h.zero4]

/-- The C library function `strncmp` on byte strings: at most `n` bytes are compared, as
unsigned values, and the comparison stops after a NUL.  The end of a list reads as the
terminating NUL.  The result is zero exactly when the strings compare equal. -/
def strncmp (s1 s2 : List Nat) : Nat → Int
  | 0 => 0
  | n + 1 =>
    if s1.headD 0 ≠ s2.headD 0 then (s1.headD 0 : Int) - (s2.headD 0 : Int)
    else if s1.headD 0 = 0 then 0
    else strncmp s1.tail s2.tail n

/-- The string literal `"NES\x1a"`. -/
def NES_MAGIC : List Nat := [0x4E, 0x45, 0x53, 0x1A]

/-- The string literal `"DiskDude!"`. -/
def DISK_DUDE : List Nat := [0x44, 0x69, 0x73, 0x6B, 0x44, 0x75, 0x64, 0x65, 0x21]

/-- Method `INesHeader::ValidateHeader`: the result and the header it leaves behind. -/
def INesHeader.ValidateHeader (h : INesHeader) : Bool × INesHeader :=
  if strncmp h.bytes NES_MAGIC 4 ≠ 0 then
    (false, h)
  else if strncmp (h.bytes.drop 7) DISK_DUDE 9 = 0 then
    (true, { h with flags7 := 0, PrgRamSize := 0, flags9 := 0, flags10 := 0,
                    zero0 := 0, zero1 := 0, zero2 := 0, zero3 := 0, zero4 := 0 })
  else
    (true, h)

/-- Method `INesHeader::HasTrainer`. -/
def INesHeader.HasTrainer (h : INesHeader) : Bool :=
  decide (h.flags6 &&& (1 <<< 2) ≠ 0)

/-- Method `INesHeader::HasSaveRam`. -/
def INesHeader.HasSaveRam (h : INesHeader) : Bool :=
  decide (h.flags6 &&& (1 <<< 1) ≠ 0)

/-- Method `INesHeader::Mirroring`. -/
def INesHeader.Mirroring (h : INesHeader) : NameTableMirroring :=
  if h.flags6 &&& 0x1 = 0 then NameTableMirroring.Horizontal else NameTableMirroring.Vertical

/-- Method `INesHeader::MapperNumber`. -/
def INesHeader.MapperNumber (h : INesHeader) : Nat :=
  let lo := (h.flags6 >>> 4) &&& 0x0f
  let hi := (h.flags7 >>> 4) &&& 0x0f
  (hi <<< 4) ||| lo

/-- The data members of `class Rom`: the header and the three byte vectors. -/
structure Rom where
  Header : INesHeader
  PrgRom : List Nat
  PrgRam : List Nat
  ChrRom : List Nat
deriving DecidableEq, Repr

/-- Read `v[i]` of a `std::vector<u8>` where the index expression `i` has C++ type
`int`.  A negative `int` converts to a `size_t` beyond the size of every vector, so the
read is outside the vector, as is every `i` with `v.size() <= i`. -/
def vecLoad (v : List Nat) (i : Int) : Option Nat :=
  if 0 ≤ i then v[i.toNat]? else none

/-- Write `v[i] = val` of a `std::vector<u8>`; `none` outside the vector. -/
def vecStore (v : List Nat) (i : Nat) (val : Nat) : Option (List Nat) :=
  if i < v.length then some (v.set i val) else none

/-! ## mapper.cpp: SxRom (mapper 1) -/

/-- PRG bank size selected by the control register, `SxRom::PrgSize`. -/
inductive PrgSize where
  | Size32k
  | Size16k
deriving DecidableEq, Repr

/-- CHR bank mode selected by the control register, `SxRom::ChrMode`. -/
inductive ChrMode where
  | Mode8k
  | Mode4k
deriving DecidableEq, Repr

/-- Modelled from the spec: the widths of the registers of `SxRom`, declared in
`mapper.h`, which is not among the sources; each is taken as a `u8` (the spec gives 5-bit
and 4-bit registers).  The members are those the constructor in `mapper.cpp`
initialises: the cartridge the mapper shares (`_rom`, whose `PrgRam` it writes), the
inherited `Mirroring`, the registers and the CHR-RAM vector. -/
structure SxRom where
  _rom : Rom
  Mirroring : NameTableMirroring
  _prgSize : PrgSize
  _chrMode : ChrMode
  _slotSelect : Bool
  _chrBank0 : Nat
  _chrBank1 : Nat
  _prgBank : Nat
  _accumulator : Nat
  _writeCount : Nat
  _chrRam : List Nat
deriving DecidableEq, Repr

namespace SxRom

/-- Constructor `SxRom::SxRom`: the mirroring comes from the header (`IMapper::IMapper`),
16 KiB PRG mode, 8 KiB CHR mode, the last bank fixed, all registers zero; the 8 KiB
CHR-RAM is allocated when the cartridge has no CHR-ROM. -/
def ctor (rom : Rom) : SxRom :=
  { _rom := rom
    Mirroring := rom.Header.Mirroring
    _prgSize := PrgSize.Size16k
    _chrMode := ChrMode.Mode8k
    _slotSelect := true
    _chrBank0 := 0
    _chrBank1 := 0
    _prgBank := 0
    _accumulator := 0
    _writeCount := 0
    _chrRam := if rom.Header.ChrRomSize > 0 then [] else List.replicate 0x2000 0 }

/-- Method `SxRom::prg_loadb`.  The index expressions have type `int`.  `_prgSize` has
only the two enumerators, so the final `__debugbreak` branch has no counterpart. -/
def prg_loadb (s : SxRom) (addr : Nat) : Option Nat :=
  if addr < 0x8000 then
    vecLoad s._rom.PrgRam ((addr &&& 0x1fff : Nat) : Int)
  else
    match s._prgSize with
    | PrgSize.Size32k =>
      vecLoad s._rom.PrgRom ((((s._prgBank >>> 1) * 0x4000 * 2 + (addr &&& 0x7fff) : Nat)) : Int)
    | PrgSize.Size16k =>
      if addr < 0xc000 then
        if !s._slotSelect then
          vecLoad s._rom.PrgRom ((addr &&& 0x3fff : Nat) : Int)
        else
          vecLoad s._rom.PrgRom ((s._prgBank * 0x4000 + (addr &&& 0x3fff) : Nat) : Int)
      else
        if !s._slotSelect then
          vecLoad s._rom.PrgRom ((s._prgBank * 0x4000 + (addr &&& 0x3fff) : Nat) : Int)
        else
          vecLoad s._rom.PrgRom
            (((s._rom.Header.PrgRomSize : Int) - 1) * 0x4000 + ((addr &&& 0x3fff : Nat) : Int))

/-- The register commit of `SxRom::prg_storeb`, run when the fifth bit has been shifted
in: `acc` is the accumulator after the shift. -/
def commit (s : SxRom) (addr : Nat) (acc : Nat) : SxRom :=
  if addr ≤ 0x9fff then
    { s with
      Mirroring :=
        if acc &&& 0x3 = 0 then NameTableMirroring.SingleScreenLower
        else if acc &&& 0x3 = 1 then NameTableMirroring.SingleScreenUpper
        else if acc &&& 0x3 = 2 then NameTableMirroring.Vertical
        else NameTableMirroring.Horizontal
      _slotSelect := decide (acc &&& (1 <<< 2) ≠ 0)
      _prgSize := if acc &&& (1 <<< 3) = 0 then PrgSize.Size32k else PrgSize.Size16k
      _chrMode := if acc &&& (1 <<< 4) = 0 then ChrMode.Mode8k else ChrMode.Mode4k
      _accumulator := 0
      _writeCount := 0 }
  else if addr ≤ 0xbfff then
    { s with _chrBank0 := acc &&& 0x1f, _accumulator := 0, _writeCount := 0 }
  else if addr ≤ 0xdfff then
    { s with _chrBank1 := acc &&& 0x1f, _accumulator := 0, _writeCount := 0 }
  else
    { s with _prgBank := acc &&& 0xf, _accumulator := 0, _writeCount := 0 }

/-- Method `SxRom::prg_storeb`.  Below 0x8000 the byte goes to PRG-RAM.  At and above
0x8000 a value with bit 7 set resets the shift register; any other value shifts its
bit 0 into `_accumulator` at position `_writeCount` (both `u8`, so truncated to 8 bits)
and commits on the fifth write.  A shift of an `int` by 32 or more is undefined. -/
def prg_storeb (s : SxRom) (addr val : Nat) : Option SxRom :=
  if addr < 0x8000 then
    (vecStore s._rom.PrgRam (addr &&& 0x1fff) val).map
      (fun ram => { s with _rom := { s._rom with PrgRam := ram } })
  else if val &&& (1 <<< 7) ≠ 0 then
    some { s with _writeCount := 0, _accumulator := 0, _prgSize := PrgSize.Size16k,
                  _slotSelect := true }
  else if 32 ≤ s._writeCount then
    none
  else
    let acc := (s._accumulator ||| ((val &&& 1) <<< s._writeCount)) % 256
    let wc := (s._writeCount + 1) % 256
    if wc = 5 then
      some (commit s addr acc)
    else
      some { s with _accumulator := acc, _writeCount := wc }

/-- Method `SxRom::ChrBufAddress` (result type `u32`). -/
def ChrBufAddress (s : SxRom) (addr : Nat) : Nat :=
  match s._chrMode with
  | ChrMode.Mode4k =>
    if addr < 0x1000 then
      (s._chrBank0 * 0x1000 + addr) % 2 ^ 32
    else
      (s._chrBank1 * 0x1000 + (addr &&& 0xfff)) % 2 ^ 32
  | ChrMode.Mode8k =>
    ((s._chrBank0 >>> 1) * 0x2000 + addr) % 2 ^ 32

/-- The buffer behind the pointer `_chrBuf`, fixed by the constructor: the CHR-ROM vector
of the cartridge when the header has `ChrRomSize > 0`, the CHR-RAM vector otherwise. -/
def chrBuf (s : SxRom) : List Nat :=
  if s._rom.Header.ChrRomSize > 0 then s._rom.ChrRom else s._chrRam

/-- Method `SxRom::chr_loadb`: `_chrBuf[ChrBufAddress(addr)]`. -/
def chr_loadb (s : SxRom) (addr : Nat) : Option Nat :=
  (chrBuf s)[ChrBufAddress s addr]?

/-- Method `SxRom::chr_storeb`: `_chrBuf[ChrBufAddress(addr)] = val`, a write into
whichever vector `_chrBuf` points to. -/
def chr_storeb (s : SxRom) (addr val : Nat) : Option SxRom :=
  if s._rom.Header.ChrRomSize > 0 then
    (vecStore s._rom.ChrRom (ChrBufAddress s addr) val).map
      (fun buf => { s with _rom := { s._rom with ChrRom := buf } })
  else
    (vecStore s._chrRam (ChrBufAddress s addr) val).map
      (fun buf => { s with _chrRam := buf })

end SxRom

/-! ## mapper.cpp: NRom (mapper 0) and the mappers derived from it -/

/-- Modelled from the spec: the members of `NRom`, declared in `mapper.h`, which is not
among the sources: the shared cartridge, the inherited `Mirroring`, and the CHR-RAM
array `_chrRam`.  The pointer `_chrBuf` is fixed by the constructor: it is
CHR-ROM when the header has `ChrRomSize > 0` and `_chrRam` otherwise. -/
structure NRom where
  _rom : Rom
  Mirroring : NameTableMirroring
  _chrRam : List Nat
deriving DecidableEq, Repr

namespace NRom

/-- Constructor `NRom::NRom`.  The array `_chrRam` is not initialised by the C++
constructor, so its initial content is an argument here. -/
def ctor (rom : Rom) (chrRam : List Nat) : NRom :=
  { _rom := rom, Mirroring := rom.Header.Mirroring, _chrRam := chrRam }

/-- Method `NRom::prg_loadb`. -/
def prg_loadb (s : NRom) (addr : Nat) : Option Nat :=
  if addr < 0x8000 then
    vecLoad s._rom.PrgRam ((addr &&& 0x1fff : Nat) : Int)
  else if s._rom.Header.PrgRomSize = 1 then
    vecLoad s._rom.PrgRom ((addr &&& 0x3fff : Nat) : Int)
  else
    vecLoad s._rom.PrgRom ((addr &&& 0x7fff : Nat) : Int)

/-- Method `NRom::prg_storeb`: only PRG-RAM (below 0x8000) is written. -/
def prg_storeb (s : NRom) (addr val : Nat) : Option NRom :=
  if addr < 0x8000 then
    (vecStore s._rom.PrgRam (addr &&& 0x1fff) val).map
      (fun ram => { s with _rom := { s._rom with PrgRam := ram } })
  else
    some s

/-- Method `NRom::chr_loadb`: reads through `_chrBuf`. -/
def chr_loadb (s : NRom) (addr : Nat) : Option Nat :=
  if s._rom.Header.ChrRomSize > 0 then s._rom.ChrRom[addr]? else s._chrRam[addr]?

/-- Method `NRom::chr_storeb`: always writes `_chrRam`. -/
def chr_storeb (s : NRom) (addr val : Nat) : Option NRom :=
  (vecStore s._chrRam addr val).map (fun ram => { s with _chrRam := ram })

/-- Runs a sequence of `NRom::chr_storeb` calls, each an (address, value) pair, in
order; the run is undefined as soon as one call is. -/
def chr_storeb_all (s : NRom) : List (Nat × Nat) → Option NRom
  | [] => some s
  | w :: ws => (chr_storeb s w.1 w.2).bind (fun t => chr_storeb_all t ws)

end NRom

/-- Modelled from the spec: the widths of the members of `UNRom`, declared in `mapper.h`,
which is not among the sources.  A `UNRom` is an `NRom` with the bank latch `_prgBank`
(taken as `u8`) and the offset of the last bank `_lastBankOffset` (taken as `u32`, the
type of `PRG_ROM_BANK_SIZE`). -/
structure UNRom extends NRom where
  _prgBank : Nat
  _lastBankOffset : Nat
deriving DecidableEq, Repr

namespace UNRom

/-- Constructor `UNRom::UNRom`.  `(PrgRomSize - 1) * PRG_ROM_BANK_SIZE` is an `int`
times a `u32`, computed in `u32`. -/
def ctor (rom : Rom) (chrRam : List Nat) : UNRom :=
  { toNRom := NRom.ctor rom chrRam
    _prgBank := 0
    _lastBankOffset :=
      ((((rom.Header.PrgRomSize : Int) - 1) * (PRG_ROM_BANK_SIZE : Int)) % 2 ^ 32).toNat }

/-- Method `UNRom::prg_storeb`: the address is not inspected. -/
def prg_storeb (s : UNRom) (_addr val : Nat) : UNRom :=
  { s with _prgBank := val &&& 0x07 }

/-- Method `UNRom::prg_loadb`.  Both index expressions are `u32`. -/
def prg_loadb (s : UNRom) (addr : Nat) : Option Nat :=
  if addr > 0xC000 then
    vecLoad s._rom.PrgRom (((s._lastBankOffset + (addr &&& 0x3FFF)) % 2 ^ 32 : Nat) : Int)
  else
    vecLoad s._rom.PrgRom
      (((s._prgBank * PRG_ROM_BANK_SIZE + (addr &&& 0x3FFF)) % 2 ^ 32 : Nat) : Int)

end UNRom

/-- Modelled from the spec: the members of `CNRom`, declared in `mapper.h`, which is not
among the sources: an `NRom` with the CHR bank latch `_chrBank`. -/
structure CNRom extends NRom where
  _chrBank : Nat
deriving DecidableEq, Repr

namespace CNRom

/-- Constructor `CNRom::CNRom`. -/
def ctor (rom : Rom) (chrRam : List Nat) : CNRom :=
  { toNRom := NRom.ctor rom chrRam, _chrBank := 0 }

/-- Method `CNRom::prg_storeb`: the address is not inspected. -/
def prg_storeb (s : CNRom) (_addr val : Nat) : CNRom :=
  { s with _chrBank := val &&& 0x03 }

/-- Method `CNRom::chr_loadb`. -/
def chr_loadb (s : CNRom) (addr : Nat) : Option Nat :=
  vecLoad s._rom.ChrRom (((s._chrBank * CHR_ROM_BANK_SIZE + addr) % 2 ^ 32 : Nat) : Int)

/-- The program read of a `CNRom`: `CNRom` does not override `prg_loadb`, so this is
`NRom::prg_loadb` on the base object. -/
def prg_loadb (s : CNRom) (addr : Nat) : Option Nat :=
  NRom.prg_loadb s.toNRom addr

/-- Runs a sequence of `CNRom::prg_storeb` calls, each an (address, value) pair, in
order. -/
def prg_storeb_all (s : CNRom) : List (Nat × Nat) → CNRom
  | [] => s
  | w :: ws => prg_storeb_all (prg_storeb s w.1 w.2) ws

end CNRom

/-! ## mapper.cpp: IMapper::CreateMapper -/

/-- The object behind the `std::shared_ptr<IMapper>` that `CreateMapper` returns: one of
the four mapper classes. -/
inductive Mapper where
  | nrom (m : NRom)
  | sxrom (m : SxRom)
  | unrom (m : UNRom)
  | cnrom (m : CNRom)
deriving DecidableEq, Repr

/-- The public member `IMapper::Mirroring` of a created mapper. -/
def Mapper.Mirroring : Mapper → NameTableMirroring
  | Mapper.nrom m => m.Mirroring
  | Mapper.sxrom m => m.Mirroring
  | Mapper.unrom m => m.Mirroring
  | Mapper.cnrom m => m.Mirroring

/-- Static method `IMapper::CreateMapper`: `none` is the null pointer of the default
case.  `chrRam` is the initial content of the CHR-RAM array of the `NRom` family, which
their constructor leaves uninitialised. -/
def CreateMapper (rom : Rom) (chrRam : List Nat) : Option Mapper :=
  match rom.Header.MapperNumber with
  | 0 => some (Mapper.nrom (NRom.ctor rom chrRam))
  | 1 => some (Mapper.sxrom (SxRom.ctor rom))
  | 2 => some (Mapper.unrom (UNRom.ctor rom chrRam))
  | 3 => some (Mapper.cnrom (CNRom.ctor rom chrRam))
  | _ => none

/-- The caller in `main` of `nes.cpp`: right after `CreateMapper` it returns `-1` when
the mapper is null (`some (-1)`) and otherwise goes on to build the machine (`none`). -/
def main_mapper_check (mapper : Option Mapper) : Option Int :=
  match mapper with
  | none => some (-1)
  | some _ => none

/-! ## mem.cpp: Ram -/

/-- Modelled from the spec: the size of the array `_ram` of `Ram`, declared in `mem.h`,
which is not among the sources; the spec gives 2 KiB, the range of the index
`addr & 0x7ff`. -/
structure Ram where
  _ram : Fin 0x800 → Nat

namespace Ram

/-- The index `addr & 0x7ff` used by both accessors; it is always inside the array. -/
def index (addr : Nat) : Fin 0x800 :=
  ⟨addr &&& 0x7ff, Nat.and_lt_two_pow addr (by decide : 0x7ff < 2 ^ 11)⟩

/-- Constructor `Ram::Ram`: `ZeroMemory` over the whole array. -/
def ctor : Ram := { _ram := fun _ => 0 }

/-- Method `Ram::loadb`. -/
def loadb (s : Ram) (addr : Nat) : Nat := s._ram (index addr)

/-- Method `Ram::storeb`. -/
def storeb (s : Ram) (addr val : Nat) : Ram :=
  { _ram := fun i => if i = index addr then val else s._ram i }

end Ram

/-! ## mem.cpp: MemoryMap -/

/-- Modelled from the spec: the bus-device interface `IMem` of `mem.h`, which is not
among the sources.  A device exposes `load(addr) -> byte` and `store(addr, byte)`; a
load may change the device (status and data ports), so it returns the new device too.
`none` stands for an access on which the device itself has undefined behaviour. -/
structure IMem (σ : Type) where
  loadb : σ → Nat → Option (Nat × σ)
  storeb : σ → Nat → Nat → Option σ

/-- Modelled from the spec: the program side of the mapper interface `IMapper` of
`mapper.h`, which is not among the sources (`prg_load`, `prg_store`). -/
structure IMapper (μ : Type) where
  prg_loadb : μ → Nat → Option (Nat × μ)
  prg_storeb : μ → Nat → Nat → Option μ

/-- The devices a `MemoryMap` routes to (the virtual tables of `_ppu`, `_apu`, `_input`
and `_mapper`). -/
structure Devices (P A I M : Type) where
  ppu : IMem P
  apu : IMem A
  input : IMem I
  mapper : IMapper M

/-- The state reachable from a `MemoryMap` object, as its constructor and accessors in
`mem.cpp` use it: its own `_ram` and the four devices it refers to. -/
structure MemoryMap (P A I M : Type) where
  _ram : Ram
  _ppu : P
  _apu : A
  _input : I
  _mapper : M

namespace MemoryMap

variable {P A I M : Type}

/-- Method `MemoryMap::loadb`. -/
def loadb (d : Devices P A I M) (m : MemoryMap P A I M) (addr : Nat) :
    Option (Nat × MemoryMap P A I M) :=
  if addr < 0x2000 then
    some (m._ram.loadb addr, m)
  else if addr < 0x4000 then
    (d.ppu.loadb m._ppu addr).map (fun r => (r.1, { m with _ppu := r.2 }))
  else if addr < 0x4016 then
    (d.apu.loadb m._apu addr).map (fun r => (r.1, { m with _apu := r.2 }))
  else if addr < 0x4020 then
    (d.input.loadb m._input addr).map (fun r => (r.1, { m with _input := r.2 }))
  else if addr < 0x6000 then
    some (0, m)
  else
    (d.mapper.prg_loadb m._mapper addr).map (fun r => (r.1, { m with _mapper := r.2 }))

/-- Method `MemoryMap::storeb`. -/
def storeb (d : Devices P A I M) (m : MemoryMap P A I M) (addr val : Nat) :
    Option (MemoryMap P A I M) :=
  if addr < 0x2000 then
    some { m with _ram := m._ram.storeb addr val }
  else if addr < 0x4000 then
    (d.ppu.storeb m._ppu addr val).map (fun p => { m with _ppu := p })
  else if addr < 0x4016 then
    (d.apu.storeb m._apu addr val).map (fun a => { m with _apu := a })
  else if addr < 0x4020 then
    (d.input.storeb m._input addr val).map (fun i => { m with _input := i })
  else if addr < 0x6000 then
    some m
  else
    (d.mapper.prg_storeb m._mapper addr val).map (fun x => { m with _mapper := x })

end MemoryMap

/-- The program side of `UNRom` seen through the `IMapper` interface. -/
def UNRom.asMapper : IMapper UNRom :=
  { prg_loadb := fun s a => (UNRom.prg_loadb s a).map (fun b => (b, s))
    prg_storeb := fun s a v => some (UNRom.prg_storeb s a v) }

/-- The program side of `SxRom` seen through the `IMapper` interface. -/
def SxRom.asMapper : IMapper SxRom :=
  { prg_loadb := fun s a => (SxRom.prg_loadb s a).map (fun b => (b, s))
    prg_storeb := SxRom.prg_storeb }

/-- A device with no registers: every load returns 0 and every store is dropped. -/
def nullDevice : IMem Unit :=
  { loadb := fun _ _ => some (0, ())
    storeb := fun _ _ _ => some () }

/-! ## cpu.h: registers and addressing modes -/

/-- The registers, `struct CpuRegs`: `A`, `X`, `Y`, `P`, `S` are `u8`, `PC` is `u16`. -/
structure CpuRegs where
  A : Nat
  X : Nat
  Y : Nat
  P : Nat
  S : Nat
  PC : Nat
deriving DecidableEq, Repr

/-- The status flags, `enum class Flag : u8`. -/
inductive Flag where
  | Carry
  | Zero
  | IRQ
  | Decimal
  | Break
  | Overflow
  | Negative
deriving DecidableEq, Repr

/-- The value `(u8)flag` of an enumerator. -/
def Flag.toNat : Flag → Nat
  | Flag.Carry => 1 <<< 0
  | Flag.Zero => 1 <<< 1
  | Flag.IRQ => 1 <<< 2
  | Flag.Decimal => 1 <<< 3
  | Flag.Break => 1 <<< 4
  | Flag.Overflow => 1 <<< 6
  | Flag.Negative => 1 <<< 7

namespace CpuRegs

/-- Constructor `CpuRegs::CpuRegs`. -/
def ctor : CpuRegs :=
  { A := 0, X := 0, Y := 0, P := Flag.Decimal.toNat ||| (1 <<< 5), S := 0xfd, PC := 0x8000 }

/-- Method `CpuRegs::GetFlag`. -/
def GetFlag (r : CpuRegs) (flag : Flag) : Bool :=
  decide (r.P &&& flag.toNat ≠ 0)

/-- Method `CpuRegs::SetFlag`; its parameter `on` is `turnOn` here.  `P |= flag` is the bitwise or of two `u8`; `P &= ~flag`
keeps, of the eight bits of `P`, those outside the flag: `~flag` is an `int` whose low
eight bits are `0xFF xor flag`, and the result is stored in a `u8`. -/
def SetFlag (r : CpuRegs) (flag : Flag) (turnOn : Bool) : CpuRegs :=
  if turnOn then { r with P := r.P ||| flag.toNat }
  else { r with P := r.P &&& (0xFF ^^^ flag.toNat) }

/-- Method `CpuRegs::SetZN`: the value returned and the registers left behind. -/
def SetZN (r : CpuRegs) (val : Nat) : Nat × CpuRegs :=
  (val, (r.SetFlag Flag.Zero (decide (val = 0))).SetFlag Flag.Negative
          (decide (val &&& 0x80 ≠ 0)))

end CpuRegs

/-- The state reachable from a `Cpu` object: its registers and the bus `_mem`. -/
structure Cpu (M : Type) where
  _regs : CpuRegs
  _mem : M

/-- The three addressing-mode classes of `cpu.h`; a `MemoryAddressingMode` carries its
`u16 _addr`. -/
inductive IAddressingMode where
  | AccumulatorAddressingMode
  | ImmediateAddressingMode
  | MemoryAddressingMode (_addr : Nat)
deriving DecidableEq, Repr

namespace Cpu

variable {M : Type}

/-- Modelled from the spec: `Cpu::loadb`, declared in `cpu.h` and defined in `cpu.cpp`,
which is not among the sources.  The CPU reads through the bus it was constructed with;
the result is a `u8`. -/
def loadb (bus : IMem M) (c : Cpu M) (addr : Nat) : Option (Nat × Cpu M) :=
  (bus.loadb c._mem addr).map (fun r => (r.1 % 256, { c with _mem := r.2 }))

/-- Method `Cpu::LoadBBumpPC`: `loadb(_regs.PC++)`; the `u16` program counter wraps. -/
def LoadBBumpPC (bus : IMem M) (c : Cpu M) : Option (Nat × Cpu M) :=
  let pc := c._regs.PC
  loadb bus { c with _regs := { c._regs with PC := (pc + 1) % 65536 } } pc

/-- Method `Cpu::ZeroPage`: the operand byte, cast to `u16`. -/
def ZeroPage (bus : IMem M) (c : Cpu M) : Option (IAddressingMode × Cpu M) :=
  (LoadBBumpPC bus c).map (fun r => (IAddressingMode.MemoryAddressingMode r.1, r.2))

/-- Method `Cpu::ZeroPageX`: `LoadBBumpPC() + _regs.X` is an `int` sum of two `u8`,
converted to the `u16 _addr` of the accessor. -/
def ZeroPageX (bus : IMem M) (c : Cpu M) : Option (IAddressingMode × Cpu M) :=
  (LoadBBumpPC bus c).map
    (fun r => (IAddressingMode.MemoryAddressingMode ((r.1 + r.2._regs.X) % 65536), r.2))

/-- Method `Cpu::ZeroPageY`: as `ZeroPageX`, with `_regs.Y`. -/
def ZeroPageY (bus : IMem M) (c : Cpu M) : Option (IAddressingMode × Cpu M) :=
  (LoadBBumpPC bus c).map
    (fun r => (IAddressingMode.MemoryAddressingMode ((r.1 + r.2._regs.Y) % 65536), r.2))

/-- Modelled from the spec: `Cpu::storeb`, declared in `cpu.h` and defined in `cpu.cpp`,
which is not among the sources.  The CPU writes through the bus it was constructed
with. -/
def storeb (bus : IMem M) (c : Cpu M) (addr val : Nat) : Option (Cpu M) :=
  (bus.storeb c._mem addr val).map (fun m => { c with _mem := m })

/-- Method `Cpu::Immediate`. -/
def Immediate (c : Cpu M) : IAddressingMode × Cpu M :=
  (IAddressingMode.ImmediateAddressingMode, c)

/-- Method `Cpu::Accumulator`. -/
def Accumulator (c : Cpu M) : IAddressingMode × Cpu M :=
  (IAddressingMode.AccumulatorAddressingMode, c)

/-- The virtual method `Load` of the three addressing-mode classes: the byte and the CPU
state after the call. -/
def Load (bus : IMem M) (am : IAddressingMode) (c : Cpu M) : Option (Nat × Cpu M) :=
  match am with
  | IAddressingMode.AccumulatorAddressingMode => some (c._regs.A, c)
  | IAddressingMode.ImmediateAddressingMode => LoadBBumpPC bus c
  | IAddressingMode.MemoryAddressingMode addr => loadb bus c addr

/-- The virtual method `Store` of the three addressing-mode classes. -/
def Store (bus : IMem M) (am : IAddressingMode) (c : Cpu M) (val : Nat) : Option (Cpu M) :=
  match am with
  | IAddressingMode.AccumulatorAddressingMode =>
    some { c with _regs := { c._regs with A := val } }
  | IAddressingMode.ImmediateAddressingMode => some c
  | IAddressingMode.MemoryAddressingMode addr => storeb bus c addr val

/-- Method `Cpu::lda`: `_regs.A = _regs.SetZN(am->Load())`. -/
def lda (bus : IMem M) (am : IAddressingMode) (c : Cpu M) : Option (Cpu M) :=
  (Load bus am c).map
    (fun r => { r.2 with _regs := { (r.2._regs.SetZN r.1).2 with A := (r.2._regs.SetZN r.1).1 } })

/-- Method `Cpu::ldx`. -/
def ldx (bus : IMem M) (am : IAddressingMode) (c : Cpu M) : Option (Cpu M) :=
  (Load bus am c).map
    (fun r => { r.2 with _regs := { (r.2._regs.SetZN r.1).2 with X := (r.2._regs.SetZN r.1).1 } })

/-- Method `Cpu::ldy`. -/
def ldy (bus : IMem M) (am : IAddressingMode) (c : Cpu M) : Option (Cpu M) :=
  (Load bus am c).map
    (fun r => { r.2 with _regs := { (r.2._regs.SetZN r.1).2 with Y := (r.2._regs.SetZN r.1).1 } })

/-- Method `Cpu::sta`. -/
def sta (bus : IMem M) (am : IAddressingMode) (c : Cpu M) : Option (Cpu M) :=
  Store bus am c c._regs.A

/-- Method `Cpu::stx`. -/
def stx (bus : IMem M) (am : IAddressingMode) (c : Cpu M) : Option (Cpu M) :=
  Store bus am c c._regs.X

/-- Method `Cpu::sty`. -/
def sty (bus : IMem M) (am : IAddressingMode) (c : Cpu M) : Option (Cpu M) :=
  Store bus am c c._regs.Y

/-- Method `Cpu::tax`. -/
def tax (c : Cpu M) : Cpu M :=
  { c with _regs := { (c._regs.SetZN c._regs.A).2 with X := (c._regs.SetZN c._regs.A).1 } }

/-- Method `Cpu::tay`. -/
def tay (c : Cpu M) : Cpu M :=
  { c with _regs := { (c._regs.SetZN c._regs.A).2 with Y := (c._regs.SetZN c._regs.A).1 } }

/-- Method `Cpu::txa`. -/
def txa (c : Cpu M) : Cpu M :=
  { c with _regs := { (c._regs.SetZN c._regs.X).2 with A := (c._regs.SetZN c._regs.X).1 } }

/-- Method `Cpu::tya`. -/
def tya (c : Cpu M) : Cpu M :=
  { c with _regs := { (c._regs.SetZN c._regs.Y).2 with A := (c._regs.SetZN c._regs.Y).1 } }

/-- Method `Cpu::txs`. -/
def txs (c : Cpu M) : Cpu M :=
  { c with _regs := { c._regs with S := c._regs.X } }

/-- Method `Cpu::tsx`. -/
def tsx (c : Cpu M) : Cpu M :=
  { c with _regs := { (c._regs.SetZN c._regs.S).2 with X := (c._regs.SetZN c._regs.S).1 } }

/-- Method `Cpu::clc`. -/
def clc (c : Cpu M) : Cpu M := { c with _regs := c._regs.SetFlag Flag.Carry false }

/-- Method `Cpu::sec`. -/
def sec (c : Cpu M) : Cpu M := { c with _regs := c._regs.SetFlag Flag.Carry true }

/-- Method `Cpu::cli`. -/
def cli (c : Cpu M) : Cpu M := { c with _regs := c._regs.SetFlag Flag.IRQ false }

/-- Method `Cpu::sei`. -/
def sei (c : Cpu M) : Cpu M := { c with _regs := c._regs.SetFlag Flag.IRQ true }

/-- Method `Cpu::clv`. -/
def clv (c : Cpu M) : Cpu M := { c with _regs := c._regs.SetFlag Flag.Overflow false }

/-- Method `Cpu::cld`. -/
def cld (c : Cpu M) : Cpu M := { c with _regs := c._regs.SetFlag Flag.Decimal false }

/-- Method `Cpu::sed`. -/
def sed (c : Cpu M) : Cpu M := { c with _regs := c._regs.SetFlag Flag.Decimal true }

/-- The cast `(i8)` of a byte: its value as an 8-bit two-complement number. -/
def toI8 (d : Nat) : Int :=
  if d % 256 < 128 then ((d % 256 : Nat) : Int) else ((d % 256 : Nat) : Int) - 256

/-- Method `Cpu::branch_base`: the displacement is read and the program counter bumped
whether or not the branch is taken; the sum is formed in `i32` and cast to `u16`. -/
def branch_base (bus : IMem M) (cond : Bool) (c : Cpu M) : Option (Cpu M) :=
  (LoadBBumpPC bus c).map
    (fun r =>
      if cond then
        { r.2 with _regs :=
            { r.2._regs with PC := ((((r.2._regs.PC : Nat) : Int) + toI8 r.1) % 65536).toNat } }
      else r.2)

/-- Method `Cpu::bpl`. -/
def bpl (bus : IMem M) (c : Cpu M) : Option (Cpu M) :=
  branch_base bus (!c._regs.GetFlag Flag.Negative) c

/-- Method `Cpu::bmi`. -/
def bmi (bus : IMem M) (c : Cpu M) : Option (Cpu M) :=
  branch_base bus (c._regs.GetFlag Flag.Negative) c

/-- Method `Cpu::bvc`. -/
def bvc (bus : IMem M) (c : Cpu M) : Option (Cpu M) :=
  branch_base bus (!c._regs.GetFlag Flag.Overflow) c

/-- Method `Cpu::bvs`. -/
def bvs (bus : IMem M) (c : Cpu M) : Option (Cpu M) :=
  branch_base bus (c._regs.GetFlag Flag.Overflow) c

/-- Method `Cpu::bcc`. -/
def bcc (bus : IMem M) (c : Cpu M) : Option (Cpu M) :=
  branch_base bus (!c._regs.GetFlag Flag.Carry) c

/-- Method `Cpu::bcs`. -/
def bcs (bus : IMem M) (c : Cpu M) : Option (Cpu M) :=
  branch_base bus (c._regs.GetFlag Flag.Carry) c

/-- Method `Cpu::bne`. -/
def bne (bus : IMem M) (c : Cpu M) : Option (Cpu M) :=
  branch_base bus (!c._regs.GetFlag Flag.Zero) c

/-- Method `Cpu::beq`. -/
def beq (bus : IMem M) (c : Cpu M) : Option (Cpu M) :=
  branch_base bus (c._regs.GetFlag Flag.Zero) c

end Cpu

/-- The operations on the registers that `cpu.h` defines: the instruction handlers, each
called with an addressing-mode accessor, and the two mutators of `CpuRegs`. -/
inductive CpuOp where
  | lda (am : IAddressingMode)
  | ldx (am : IAddressingMode)
  | ldy (am : IAddressingMode)
  | sta (am : IAddressingMode)
  | stx (am : IAddressingMode)
  | sty (am : IAddressingMode)
  | tax
  | tay
  | txa
  | tya
  | txs
  | tsx
  | clc
  | sec
  | cli
  | sei
  | clv
  | cld
  | sed
  | bpl
  | bmi
  | bvc
  | bvs
  | bcc
  | bcs
  | bne
  | beq
  | SetFlag (flag : Flag) (turnOn : Bool)
  | SetZN (val : Nat)
deriving DecidableEq, Repr

/-- One operation of `CpuOp` applied to a CPU state. -/
def Cpu.apply {M : Type} (bus : IMem M) (op : CpuOp) (c : Cpu M) : Option (Cpu M) :=
  match op with
  | CpuOp.lda am => Cpu.lda bus am c
  | CpuOp.ldx am => Cpu.ldx bus am c
  | CpuOp.ldy am => Cpu.ldy bus am c
  | CpuOp.sta am => Cpu.sta bus am c
  | CpuOp.stx am => Cpu.stx bus am c
  | CpuOp.sty am => Cpu.sty bus am c
  | CpuOp.tax => some (Cpu.tax c)
  | CpuOp.tay => some (Cpu.tay c)
  | CpuOp.txa => some (Cpu.txa c)
  | CpuOp.tya => some (Cpu.tya c)
  | CpuOp.txs => some (Cpu.txs c)
  | CpuOp.tsx => some (Cpu.tsx c)
  | CpuOp.clc => some (Cpu.clc c)
  | CpuOp.sec => some (Cpu.sec c)
  | CpuOp.cli => some (Cpu.cli c)
  | CpuOp.sei => some (Cpu.sei c)
  | CpuOp.clv => some (Cpu.clv c)
  | CpuOp.cld => some (Cpu.cld c)
  | CpuOp.sed => some (Cpu.sed c)
  | CpuOp.bpl => Cpu.bpl bus c
  | CpuOp.bmi => Cpu.bmi bus c
  | CpuOp.bvc => Cpu.bvc bus c
  | CpuOp.bvs => Cpu.bvs bus c
  | CpuOp.bcc => Cpu.bcc bus c
  | CpuOp.bcs => Cpu.bcs bus c
  | CpuOp.bne => Cpu.bne bus c
  | CpuOp.beq => Cpu.beq bus c
  | CpuOp.SetFlag flag turnOn => some { c with _regs := c._regs.SetFlag flag turnOn }
  | CpuOp.SetZN val => some { c with _regs := (c._regs.SetZN val).2 }

/-- A sequence of operations applied in order; the run is undefined as soon as one
operation is. -/
def Cpu.applyAll {M : Type} (bus : IMem M) : List CpuOp → Cpu M → Option (Cpu M)
  | [], c => some c
  | op :: ops, c => (Cpu.apply bus op c).bind (fun t => Cpu.applyAll bus ops t)

/-- A bus backed by system RAM alone, used to run the CPU on concrete memory. -/
def ramBus : IMem Ram :=
  { loadb := fun r a => some (r.loadb a, r)
    storeb := fun r a v => some (r.storeb a v) }

/-! ## The branch target in the words of the specification -/

/-- The displacement byte `d` read as an 8-bit two-complement number, as the
specification words it: `d - 256` when `d ≥ 0x80`, and `d` otherwise. -/
def spec_branch_disp (d : Nat) : Int :=
  if 0x80 ≤ d then (d : Int) - 256 else (d : Int)

/-- The program counter after a branch whose displacement byte `d` sits at `pc`, as the
specification words it: `(pc + 1 + s) mod 65536` when the branch is taken and
`(pc + 1) mod 65536` when it is not. -/
def spec_branch_pc (pc d : Nat) (taken : Bool) : Nat :=
  if taken then (((pc : Int) + 1 + spec_branch_disp d) % 65536).toNat
  else (pc + 1) % 65536

/-! ## Test fixtures -/

/-- Runs a sequence of `SxRom::prg_storeb` calls, each an (address, value) pair, in
order; the run is undefined as soon as one call is. -/
def SxRom.prg_storeb_all (s : SxRom) : List (Nat × Nat) → Option SxRom
  | [] => some s
  | w :: ws => (SxRom.prg_storeb s w.1 w.2).bind (fun t => SxRom.prg_storeb_all t ws)

/-- A cartridge with `n` PRG banks whose byte at offset `i` is the number of the bank
that holds it, with 8 KiB of zeroed PRG-RAM and no CHR-ROM. -/
def bankRom (n : Nat) : Rom :=
  { Header := { PrgRomSize := n, ChrRomSize := 0, flags6 := 0, flags7 := 0, PrgRamSize := 1 }
    PrgRom := (List.range (n * 0x4000)).map (fun i => i / 0x4000)
    PrgRam := List.replicate 0x2000 0
    ChrRom := [] }

/-- A cartridge for mapper number `mapper` (below 16) with `n` PRG banks and `c` CHR
banks; every PRG and CHR byte is the number of the bank that holds it.  PRG-RAM is 8 KiB
of zeroes. -/
def chrBankRom (mapper n c : Nat) : Rom :=
  { Header := { PrgRomSize := n, ChrRomSize := c, flags6 := mapper <<< 4, flags7 := 0,
                PrgRamSize := 1 }
    PrgRom := (List.range (n * 0x4000)).map (fun i => i / 0x4000)
    PrgRam := List.replicate 0x2000 0
    ChrRom := (List.range (c * 0x2000)).map (fun i => i / 0x2000) }

/-! ## Auxiliary lemmas -/

theorem vecLoad_natCast (v : List Nat) (i : Nat) : vecLoad v (i : Int) = v[i]? := by
  simp [vecLoad]

theorem and_3fff_lt (r : Nat) : r &&& 0x3fff < 0x4000 :=
  Nat.and_lt_two_pow r (by decide : 0x3fff < 2 ^ 14)

theorem lastBank_index (n k : Nat) (hn : 1 ≤ n) :
    ((n : Int) - 1) * 0x4000 + ((k : Nat) : Int) = (((n - 1) * 0x4000 + k : Nat) : Int) := by
  push_cast [Nat.cast_sub hn]
  ring

theorem bankRom_PrgRom_at (n i b : Nat) (h : i < n * 0x4000) (hb : i / 0x4000 = b) :
    (bankRom n).PrgRom[i]? = some b := by
  show ((List.range (n * 0x4000)).map (fun i => i / 0x4000))[i]? = some b
  rw [List.getElem?_map, List.getElem?_range h, ← hb]
  rfl

theorem UNRom.prg_loadb_switched (s : UNRom) (r : Nat) (hr : r ≤ 0xC000)
    (hb : s._prgBank ≤ 255) :
    UNRom.prg_loadb s r = s._rom.PrgRom[s._prgBank * 0x4000 + (r &&& 0x3FFF)]? := by
  have h1 : ¬ r > 0xC000 := by omega
  have h3 := and_3fff_lt r
  have h4 : (s._prgBank * 0x4000 + (r &&& 0x3FFF)) % 2 ^ 32 =
      s._prgBank * 0x4000 + (r &&& 0x3FFF) := by
    apply Nat.mod_eq_of_lt
    omega
  simp only [UNRom.prg_loadb, if_neg h1, PRG_ROM_BANK_SIZE]
  rw [h4, vecLoad_natCast]

theorem UNRom.prg_loadb_fixed (s : UNRom) (r : Nat) (hr : 0xC000 < r)
    (hb : s._lastBankOffset ≤ 0xFFFFC000) :
    UNRom.prg_loadb s r = s._rom.PrgRom[s._lastBankOffset + (r &&& 0x3FFF)]? := by
  have h3 := and_3fff_lt r
  have h4 : (s._lastBankOffset + (r &&& 0x3FFF)) % 2 ^ 32 =
      s._lastBankOffset + (r &&& 0x3FFF) := by
    apply Nat.mod_eq_of_lt
    omega
  simp only [UNRom.prg_loadb, if_pos hr]
  rw [h4, vecLoad_natCast]

theorem UNRom.ctor_rom (rom : Rom) (chrRam : List Nat) : (UNRom.ctor rom chrRam)._rom = rom :=
  rfl

theorem UNRom.prg_storeb_rom (s : UNRom) (a v : Nat) : (UNRom.prg_storeb s a v)._rom = s._rom :=
  rfl

theorem SxRom.prg_storeb_reset (s : SxRom) (a v : Nat) (ha : 0x8000 ≤ a)
    (hv : v &&& 0x80 ≠ 0) :
    SxRom.prg_storeb s a v =
      some { s with _writeCount := 0, _accumulator := 0, _prgSize := PrgSize.Size16k,
                    _slotSelect := true } := by
  have h1 : ¬ a < 0x8000 := by omega
  have h2 : v &&& (1 <<< 7) ≠ 0 := by simpa using hv
  simp only [SxRom.prg_storeb, if_neg h1, if_pos h2]

theorem SxRom.prg_storeb_shift (s : SxRom) (a v : Nat) (ha : 0x8000 ≤ a)
    (hv : v &&& 0x80 = 0) (hwc : s._writeCount < 4) :
    SxRom.prg_storeb s a v =
      some { s with
        _accumulator := (s._accumulator ||| ((v &&& 1) <<< s._writeCount)) % 256
        _writeCount := s._writeCount + 1 } := by
  have h1 : ¬ a < 0x8000 := by omega
  have h2 : ¬ (v &&& (1 <<< 7) ≠ 0) := by simpa using hv
  have h3 : ¬ 32 ≤ s._writeCount := by omega
  have h4 : (s._writeCount + 1) % 256 = s._writeCount + 1 := by omega
  have h5 : ¬ s._writeCount + 1 = 5 := by omega
  simp only [SxRom.prg_storeb, if_neg h1, if_neg h2, if_neg h3, h4, if_neg h5]

theorem SxRom.prg_storeb_fifth (s : SxRom) (a v : Nat) (ha : 0x8000 ≤ a)
    (hv : v &&& 0x80 = 0) (hwc : s._writeCount = 4) :
    SxRom.prg_storeb s a v =
      some (SxRom.commit s a ((s._accumulator ||| ((v &&& 1) <<< 4)) % 256)) := by
  have h1 : ¬ a < 0x8000 := by omega
  have h2 : ¬ (v &&& (1 <<< 7) ≠ 0) := by simpa using hv
  have h3 : ¬ 32 ≤ s._writeCount := by omega
  simp only [SxRom.prg_storeb, if_neg h1, if_neg h2, if_neg h3, hwc]
  rfl

/-! ## SxRom: the reset bit and the serial bank select -/

/-- C1: for every SxRom state, every address `a >= 0x8000` and every value `v` with bit 7
set, `prg_storeb(a, v)` succeeds and afterwards `prg_loadb(r)`, for every `r` in
0xC000..0xFFFF, reads PRG-ROM at `(PrgRomSize - 1) * 0x4000 + (r & 0x3FFF)`, whatever
the prior bank register, size mode and slot selection were.  On a cartridge whose
PRG-ROM holds `PrgRomSize >= 1` banks that is a byte of the last 16 KiB bank. -/
theorem SxRom.reset_write_fixes_last_bank (s : SxRom) (a v r : Nat)
    (ha : 0x8000 ≤ a) (hv : v &&& 0x80 ≠ 0) (hr : 0xC000 ≤ r) (hr2 : r ≤ 0xFFFF) :
    ∃ t, SxRom.prg_storeb s a v = some t ∧
      SxRom.prg_loadb t r =
        vecLoad s._rom.PrgRom
          (((s._rom.Header.PrgRomSize : Int) - 1) * 0x4000 + ((r &&& 0x3FFF : Nat) : Int)) ∧
      (1 ≤ s._rom.Header.PrgRomSize →
        s._rom.PrgRom.length = s._rom.Header.PrgRomSize * 0x4000 →
        ∃ b, SxRom.prg_loadb t r = some b ∧
          s._rom.PrgRom[(s._rom.Header.PrgRomSize - 1) * 0x4000 + (r &&& 0x3FFF)]? = some b ∧
          (s._rom.Header.PrgRomSize - 1) * 0x4000 ≤
            (s._rom.Header.PrgRomSize - 1) * 0x4000 + (r &&& 0x3FFF) ∧
          (s._rom.Header.PrgRomSize - 1) * 0x4000 + (r &&& 0x3FFF) < s._rom.PrgRom.length) := by
  refine ⟨_, SxRom.prg_storeb_reset s a v ha hv, ?_, ?_⟩
  · have h1 : ¬ r < 0x8000 := by omega
    have h2 : ¬ r < 0xc000 := by omega
    simp [SxRom.prg_loadb, h1, h2]
  · intro hn hlen
    have h1 : ¬ r < 0x8000 := by omega
    have h2 : ¬ r < 0xc000 := by omega
    have hk := and_3fff_lt r
    have hlt : (s._rom.Header.PrgRomSize - 1) * 0x4000 + (r &&& 0x3FFF) < s._rom.PrgRom.length := by
      rw [hlen]; omega
    refine ⟨s._rom.PrgRom[(s._rom.Header.PrgRomSize - 1) * 0x4000 + (r &&& 0x3FFF)], ?_, ?_, ?_, hlt⟩
    · simp only [SxRom.prg_loadb, if_neg h1, if_neg h2]
      simp only [Bool.not_true, Bool.false_eq_true, if_false]
      rw [lastBank_index _ _ hn, vecLoad_natCast]
      exact List.getElem?_eq_getElem hlt
    · exact List.getElem?_eq_getElem hlt
    · omega


theorem SxRom.reset_write_fixes_last_bank_witness :
    ∃ t, SxRom.prg_storeb
        { SxRom.ctor (bankRom 8) with _prgSize := PrgSize.Size32k, _slotSelect := false,
                                      _prgBank := 2, _accumulator := 5, _writeCount := 3 }
        0x8000 0x80 = some t ∧
      SxRom.prg_loadb t 0xC123 = some 7 := by
  obtain ⟨t, h1, h2, -⟩ := SxRom.reset_write_fixes_last_bank
    { SxRom.ctor (bankRom 8) with _prgSize := PrgSize.Size32k, _slotSelect := false,
                                  _prgBank := 2, _accumulator := 5, _writeCount := 3 }
    0x8000 0x80 0xC123 (by decide) (by decide) (by decide) (by decide)
  refine ⟨t, h1, ?_⟩
  rw [h2]
  show vecLoad (bankRom 8).PrgRom
    ((((8 : Nat) : Int) - 1) * 0x4000 + ((0xC123 &&& 0x3FFF : Nat) : Int)) = some 7
  rw [lastBank_index 8 _ (by decide), vecLoad_natCast]
  exact bankRom_PrgRom_at 8 _ 7 (by decide) (by decide)


/-- C2: from a freshly constructed SxRom, five writes to 0xE000 whose values have bit 7
clear and carry bits 0, 1, 2, 3, 4 of `n <= 15` in their bit 0 (LSB first) all succeed
and leave exactly the constructed state with `_prgBank = n`; a following `prg_loadb(r)`
with `r` in 0x8000..0xBFFF reads PRG-ROM at `n * 0x4000 + (r & 0x3FFF)`. -/
theorem SxRom.five_writes_select_prg_bank (rom : Rom) (n v0 v1 v2 v3 v4 r : Nat)
    (hn : n ≤ 15)
    (h0 : v0 &&& 0x80 = 0) (h1 : v1 &&& 0x80 = 0) (h2 : v2 &&& 0x80 = 0)
    (h3 : v3 &&& 0x80 = 0) (h4 : v4 &&& 0x80 = 0)
    (b0 : v0 &&& 1 = (n >>> 0) &&& 1) (b1 : v1 &&& 1 = (n >>> 1) &&& 1)
    (b2 : v2 &&& 1 = (n >>> 2) &&& 1) (b3 : v3 &&& 1 = (n >>> 3) &&& 1)
    (b4 : v4 &&& 1 = (n >>> 4) &&& 1)
    (hr : 0x8000 ≤ r) (hr2 : r ≤ 0xBFFF) :
    ∃ t, SxRom.prg_storeb_all (SxRom.ctor rom)
          [(0xE000, v0), (0xE000, v1), (0xE000, v2), (0xE000, v3), (0xE000, v4)] = some t ∧
      t._prgBank = n ∧
      SxRom.prg_loadb t r = rom.PrgRom[n * 0x4000 + (r &&& 0x3FFF)]? := by
  have e : ((((((((((0 ||| (((n >>> 0) &&& 1) <<< 0)) % 256) ||| (((n >>> 1) &&& 1) <<< 1)) % 256) ||| (((n >>> 2) &&& 1) <<< 2)) % 256) ||| (((n >>> 3) &&& 1) <<< 3)) % 256) ||| (((n >>> 4) &&& 1) <<< 4)) % 256) &&& 0xf = n := by
    interval_cases n <;> rfl
  have hr1 : ¬ r < 0x8000 := by omega
  have hr3 : r < 0xc000 := by omega
  have hrun : SxRom.prg_storeb_all (SxRom.ctor rom)
      [(0xE000, v0), (0xE000, v1), (0xE000, v2), (0xE000, v3), (0xE000, v4)] =
      some { SxRom.ctor rom with _prgBank := n } := by
    simp only [SxRom.prg_storeb_all]
    rw [SxRom.prg_storeb_shift _ _ _ (by decide) h0 (show (0 : Nat) < 4 by decide)]
    simp only [Option.some_bind]
    rw [SxRom.prg_storeb_shift _ _ _ (by decide) h1 (show (1 : Nat) < 4 by decide)]
    simp only [Option.some_bind]
    rw [SxRom.prg_storeb_shift _ _ _ (by decide) h2 (show (2 : Nat) < 4 by decide)]
    simp only [Option.some_bind]
    rw [SxRom.prg_storeb_shift _ _ _ (by decide) h3 (show (3 : Nat) < 4 by decide)]
    simp only [Option.some_bind]
    rw [SxRom.prg_storeb_fifth _ _ _ (by decide) h4 rfl]
    simp only [Option.some_bind, SxRom.commit, SxRom.ctor, b0, b1, b2, b3, b4,
      show ¬ (0xE000 ≤ 0x9fff) by decide, show ¬ (0xE000 ≤ 0xbfff) by decide,
      show ¬ (0xE000 ≤ 0xdfff) by decide, if_false]
    simp only [Nat.zero_add] at e ⊢
    rw [e]
  refine ⟨_, hrun, rfl, ?_⟩
  simp only [SxRom.prg_loadb, if_neg hr1, if_pos hr3, SxRom.ctor]
  simp only [Bool.not_true, Bool.false_eq_true, if_false]
  rw [vecLoad_natCast]

theorem SxRom.five_writes_select_prg_bank_witness :
    ∃ t, SxRom.prg_storeb_all (SxRom.ctor (bankRom 8))
          [(0xE000, 0x01), (0xE000, 0x03), (0xE000, 0x02), (0xE000, 0x00), (0xE000, 0x7E)]
          = some t ∧
      t._prgBank = 3 ∧
      SxRom.prg_loadb t 0x8000 = (bankRom 8).PrgRom[3 * 0x4000]? ∧
      SxRom.prg_loadb t 0x8000 = some 3 := by
  obtain ⟨t, h1, h2, h3⟩ := SxRom.five_writes_select_prg_bank (bankRom 8) 3
    0x01 0x03 0x02 0x00 0x7E 0x8000 (by decide) (by decide) (by decide) (by decide)
    (by decide) (by decide) (by decide) (by decide) (by decide) (by decide) (by decide)
    (by decide) (by decide)
  rw [show 3 * 0x4000 + (0x8000 &&& 0x3FFF) = 3 * 0x4000 by decide] at h3
  refine ⟨t, h1, h2, h3, ?_⟩
  rw [h3]
  exact bankRom_PrgRom_at 8 _ 3 (by decide) (by decide)

/-! ## UNRom -/

/-- C3: `UNRom::prg_loadb` tests `addr > 0xC000`, so at `addr = 0xC000` itself the read is
not fixed at the last bank: on an 8-bank cartridge it follows the latch (bank 0 after
construction, bank 3 with the latch at 3), while the last bank is bank 7; from 0xC001
on the read does come from bank 7. -/
theorem UNRom.prg_loadb_C000_follows_latch :
    UNRom.prg_loadb (UNRom.ctor (bankRom 8) []) 0xC000 = some 0 ∧
    UNRom.prg_loadb { UNRom.ctor (bankRom 8) [] with _prgBank := 3 } 0xC000 = some 3 ∧
    (bankRom 8).PrgRom[(8 - 1) * 0x4000 + (0xC000 &&& 0x3FFF)]? = some 7 ∧
    UNRom.prg_loadb (UNRom.ctor (bankRom 8) []) 0xC001 = some 7 := by
  refine ⟨?_, ?_, ?_, ?_⟩
  · rw [UNRom.prg_loadb_switched _ _ (by decide) (by decide), UNRom.ctor_rom]
    exact bankRom_PrgRom_at 8 _ 0 (by decide) (by decide)
  · rw [UNRom.prg_loadb_switched _ _ (by decide) (by decide)]
    exact bankRom_PrgRom_at 8 _ 3 (by decide) (by decide)
  · exact bankRom_PrgRom_at 8 _ 7 (by decide) (by decide)
  · rw [UNRom.prg_loadb_fixed _ _ (by decide) (by decide), UNRom.ctor_rom]
    exact bankRom_PrgRom_at 8 _ 7 (by decide) (by decide)

/-- C4: for every UNRom state, every address `a >= 0x8000` and every value `v`, after
`prg_storeb(a, v)` the latch `_prgBank` is `v & 0x07`, and `prg_loadb(r)` for every `r` in
0x8000..0xBFFF reads PRG-ROM at `(v & 0x07) * 0x4000 + (r & 0x3FFF)`. -/
theorem UNRom.prg_storeb_selects_bank (s : UNRom) (a v r : Nat) (_ha : 0x8000 ≤ a)
    (_hr : 0x8000 ≤ r) (hr2 : r ≤ 0xBFFF) :
    (UNRom.prg_storeb s a v)._prgBank = v &&& 0x07 ∧
    UNRom.prg_loadb (UNRom.prg_storeb s a v) r =
      s._rom.PrgRom[(v &&& 0x07) * 0x4000 + (r &&& 0x3FFF)]? := by
  refine ⟨rfl, ?_⟩
  have h2 : v &&& 0x07 ≤ 0x07 := Nat.and_le_right
  have h5 : (UNRom.prg_storeb s a v)._prgBank ≤ 255 := by
    show v &&& 0x07 ≤ 255
    omega
  rw [UNRom.prg_loadb_switched _ _ (by omega) h5]
  rfl

theorem UNRom.prg_storeb_selects_bank_witness :
    (UNRom.prg_storeb (UNRom.ctor (bankRom 8) []) 0x8000 0xFD)._prgBank = 5 ∧
    UNRom.prg_loadb (UNRom.prg_storeb (UNRom.ctor (bankRom 8) []) 0x8000 0xFD) 0xBFFF =
      some 5 := by
  obtain ⟨h1, h2⟩ := UNRom.prg_storeb_selects_bank (UNRom.ctor (bankRom 8) []) 0x8000 0xFD
    0xBFFF (by decide) (by decide) (by decide)
  refine ⟨h1, ?_⟩
  rw [h2, UNRom.ctor_rom]
  exact bankRom_PrgRom_at 8 _ 5 (by decide) (by decide)

/-- C5: `UNRom::prg_storeb` never looks at the address, and `MemoryMap::storeb` forwards
every address from 0x6000 up to it: a store of 1 to 0x6000 (the PRG-RAM window), sent
through the bus, moves the latch of a fresh UNRom from 0 to 1, and the byte read at
0x8000 changes from bank 0 to bank 1. -/
theorem UNRom.prg_storeb_6000_moves_latch :
    (UNRom.ctor (bankRom 8) [])._prgBank = 0 ∧
    (UNRom.prg_storeb (UNRom.ctor (bankRom 8) []) 0x6000 1)._prgBank = 1 ∧
    (MemoryMap.storeb
        { ppu := nullDevice, apu := nullDevice, input := nullDevice,
          mapper := UNRom.asMapper }
        { _ram := Ram.ctor, _ppu := (), _apu := (), _input := (),
          _mapper := UNRom.ctor (bankRom 8) [] }
        0x6000 1).map (fun m => m._mapper._prgBank) = some 1 ∧
    UNRom.prg_loadb (UNRom.ctor (bankRom 8) []) 0x8000 = some 0 ∧
    UNRom.prg_loadb (UNRom.prg_storeb (UNRom.ctor (bankRom 8) []) 0x6000 1) 0x8000 =
      some 1 := by
  refine ⟨rfl, rfl, rfl, ?_, ?_⟩
  · rw [UNRom.prg_loadb_switched _ _ (by decide) (by decide), UNRom.ctor_rom]
    exact bankRom_PrgRom_at 8 _ 0 (by decide) (by decide)
  · rw [UNRom.prg_loadb_switched _ _ (by decide) (by decide), UNRom.prg_storeb_rom,
      UNRom.ctor_rom]
    exact bankRom_PrgRom_at 8 _ 1 (by decide) (by decide)

/-! ## Cpu: zero-page indexed addressing -/

/-- C6: `Cpu::ZeroPageX` and `Cpu::ZeroPageY` add the index register to the operand byte
as an `int` and store the sum in a `u16`, so the sum is not wrapped to 8 bits: with the
operand 0xFF at PC = 0x0010 and X = 0x01 the accessor addresses 0x0100 (page 1), where
`(0xFF + 0x01) & 0xFF` is 0x00; with the operand 0xC0 and Y = 0x80 it addresses 0x0140.
PC advances by one in both. -/
theorem Cpu.ZeroPageX_leaves_page_zero :
    (Cpu.ZeroPageX ramBus
        { _regs := { A := 0, X := 0x01, Y := 0, P := 0x28, S := 0xFD, PC := 0x0010 },
          _mem := Ram.storeb Ram.ctor 0x0010 0xFF }).map (fun r => (r.1, r.2._regs.PC)) =
      some (IAddressingMode.MemoryAddressingMode 0x0100, 0x0011) ∧
    (0xFF + 0x01) &&& 0xFF = 0x00 ∧
    (Cpu.ZeroPageY ramBus
        { _regs := { A := 0, X := 0, Y := 0x80, P := 0x28, S := 0xFD, PC := 0x0010 },
          _mem := Ram.storeb Ram.ctor 0x0010 0xC0 }).map (fun r => (r.1, r.2._regs.PC)) =
      some (IAddressingMode.MemoryAddressingMode 0x0140, 0x0011) ∧
    (0xC0 + 0x80) &&& 0xFF = 0x40 := by
  refine ⟨?_, ?_, ?_, ?_⟩ <;> decide

/-! ## Ram -/

theorem Ram.index_xor (a k : Nat) (hk : k &&& 0x7ff = 0) :
    Ram.index (a ^^^ k) = Ram.index a := by
  apply Fin.ext
  show (a ^^^ k) &&& 0x7ff = a &&& 0x7ff
  rw [Nat.and_xor_distrib_right, hk, Nat.xor_zero]

/-- C7: system RAM is mirrored on the low 11 address bits: for every RAM state and every
address `a`, `loadb(a)` equals `loadb(a xor 0x0800)`, `loadb(a xor 0x1000)` and
`loadb(a xor 0x1800)`; after `storeb(a, v)`, `loadb(b)` returns `v` when
`b & 0x07FF = a & 0x07FF` and its previous value otherwise; a freshly constructed RAM
loads 0 at every address. -/
theorem Ram.mirrored_2KiB (s : Ram) (a b v : Nat) :
    Ram.loadb s a = Ram.loadb s (a ^^^ 0x0800) ∧
    Ram.loadb s a = Ram.loadb s (a ^^^ 0x1000) ∧
    Ram.loadb s a = Ram.loadb s (a ^^^ 0x1800) ∧
    Ram.loadb (Ram.storeb s a v) b =
      (if b &&& 0x07FF = a &&& 0x07FF then v else Ram.loadb s b) ∧
    Ram.loadb Ram.ctor a = 0 := by
  refine ⟨?_, ?_, ?_, ?_, rfl⟩
  · simp only [Ram.loadb, Ram.index_xor a 0x0800 (by decide)]
  · simp only [Ram.loadb, Ram.index_xor a 0x1000 (by decide)]
  · simp only [Ram.loadb, Ram.index_xor a 0x1800 (by decide)]
  · have h : (Ram.index b = Ram.index a) ↔ (b &&& 0x07FF = a &&& 0x07FF) := by
      constructor
      · intro e
        exact congrArg Fin.val e
      · intro e
        exact Fin.ext e
    simp only [Ram.loadb, Ram.storeb, h]

/-! ## MemoryMap -/

/-- C8: the CPU bus dispatches by address range alone.  Below 0x2000 a load returns
`ram.loadb(a)` and a store updates RAM; in 0x2000..0x3FFF, 0x4000..0x4015 and
0x4016..0x401F loads and stores are forwarded with the unchanged address to the PPU,
the APU and the input device; in 0x4020..0x5FFF a load returns 0 and neither a load nor
a store changes anything; from 0x6000 on both are forwarded with the full address to the
mapper.  No access changes any component other than the one it is routed to. -/
theorem MemoryMap.routes_by_address {P A I M : Type} (d : Devices P A I M)
    (m : MemoryMap P A I M) (a v : Nat) :
    (a < 0x2000 →
      MemoryMap.loadb d m a = some (Ram.loadb m._ram a, m) ∧
      MemoryMap.storeb d m a v = some { m with _ram := Ram.storeb m._ram a v }) ∧
    (0x2000 ≤ a → a < 0x4000 →
      MemoryMap.loadb d m a =
        (d.ppu.loadb m._ppu a).map (fun r => (r.1, { m with _ppu := r.2 })) ∧
      MemoryMap.storeb d m a v =
        (d.ppu.storeb m._ppu a v).map (fun p => { m with _ppu := p })) ∧
    (0x4000 ≤ a → a < 0x4016 →
      MemoryMap.loadb d m a =
        (d.apu.loadb m._apu a).map (fun r => (r.1, { m with _apu := r.2 })) ∧
      MemoryMap.storeb d m a v =
        (d.apu.storeb m._apu a v).map (fun x => { m with _apu := x })) ∧
    (0x4016 ≤ a → a < 0x4020 →
      MemoryMap.loadb d m a =
        (d.input.loadb m._input a).map (fun r => (r.1, { m with _input := r.2 })) ∧
      MemoryMap.storeb d m a v =
        (d.input.storeb m._input a v).map (fun x => { m with _input := x })) ∧
    (0x4020 ≤ a → a < 0x6000 →
      MemoryMap.loadb d m a = some (0, m) ∧
      MemoryMap.storeb d m a v = some m) ∧
    (0x6000 ≤ a →
      MemoryMap.loadb d m a =
        (d.mapper.prg_loadb m._mapper a).map (fun r => (r.1, { m with _mapper := r.2 })) ∧
      MemoryMap.storeb d m a v =
        (d.mapper.prg_storeb m._mapper a v).map (fun x => { m with _mapper := x })) := by
  refine ⟨?_, ?_, ?_, ?_, ?_, ?_⟩
  · intro h
    simp only [MemoryMap.loadb, MemoryMap.storeb, if_pos h, and_self]
  · intro h1 h2
    have n1 : ¬ a < 0x2000 := by omega
    simp only [MemoryMap.loadb, MemoryMap.storeb, if_neg n1, if_pos h2, and_self]
  · intro h1 h2
    have n1 : ¬ a < 0x2000 := by omega
    have n2 : ¬ a < 0x4000 := by omega
    simp only [MemoryMap.loadb, MemoryMap.storeb, if_neg n1, if_neg n2, if_pos h2, and_self]
  · intro h1 h2
    have n1 : ¬ a < 0x2000 := by omega
    have n2 : ¬ a < 0x4000 := by omega
    have n3 : ¬ a < 0x4016 := by omega
    simp only [MemoryMap.loadb, MemoryMap.storeb, if_neg n1, if_neg n2, if_neg n3, if_pos h2,
      and_self]
  · intro h1 h2
    have n1 : ¬ a < 0x2000 := by omega
    have n2 : ¬ a < 0x4000 := by omega
    have n3 : ¬ a < 0x4016 := by omega
    have n4 : ¬ a < 0x4020 := by omega
    simp only [MemoryMap.loadb, MemoryMap.storeb, if_neg n1, if_neg n2, if_neg n3, if_neg n4,
      if_pos h2, and_self]
  · intro h1
    have n1 : ¬ a < 0x2000 := by omega
    have n2 : ¬ a < 0x4000 := by omega
    have n3 : ¬ a < 0x4016 := by omega
    have n4 : ¬ a < 0x4020 := by omega
    have n5 : ¬ a < 0x6000 := by omega
    simp only [MemoryMap.loadb, MemoryMap.storeb, if_neg n1, if_neg n2, if_neg n3, if_neg n4,
      if_neg n5, and_self]

/-! ## SxRom: the control register and the PRG window -/

/-- C9: in an SxRom state with `_writeCount = 4` whose accumulator holds the four bits
collected so far (`_accumulator < 16`), a `prg_storeb(a, v)` with `a` in 0x8000..0x9FFF
and bit 7 of `v` clear succeeds and commits `c = _accumulator + ((v & 1) << 4)` to the
control register: mirroring is SingleScreenLower, SingleScreenUpper, Vertical,
Horizontal for `c & 3 = 0, 1, 2, 3`; `_slotSelect` is bit 2 of `c`; `_prgSize` is 16 KiB
when bit 3 of `c` is set and 32 KiB otherwise; `_chrMode` is 4 KiB when bit 4 of `c` is
set and 8 KiB otherwise; the bank registers, the cartridge and CHR-RAM are unchanged;
accumulator and write count are 0. -/
theorem SxRom.control_commit (s : SxRom) (a v : Nat) (ha : 0x8000 ≤ a) (ha2 : a ≤ 0x9FFF)
    (hv : v &&& 0x80 = 0) (hwc : s._writeCount = 4) (hacc : s._accumulator < 16) :
    ∃ t, SxRom.prg_storeb s a v = some t ∧
      ((s._accumulator + ((v &&& 1) <<< 4)) &&& 3 = 0 →
        t.Mirroring = NameTableMirroring.SingleScreenLower) ∧
      ((s._accumulator + ((v &&& 1) <<< 4)) &&& 3 = 1 →
        t.Mirroring = NameTableMirroring.SingleScreenUpper) ∧
      ((s._accumulator + ((v &&& 1) <<< 4)) &&& 3 = 2 →
        t.Mirroring = NameTableMirroring.Vertical) ∧
      ((s._accumulator + ((v &&& 1) <<< 4)) &&& 3 = 3 →
        t.Mirroring = NameTableMirroring.Horizontal) ∧
      t._slotSelect = (s._accumulator + ((v &&& 1) <<< 4)).testBit 2 ∧
      t._prgSize = (if (s._accumulator + ((v &&& 1) <<< 4)).testBit 3
        then PrgSize.Size16k else PrgSize.Size32k) ∧
      t._chrMode = (if (s._accumulator + ((v &&& 1) <<< 4)).testBit 4
        then ChrMode.Mode4k else ChrMode.Mode8k) ∧
      t._chrBank0 = s._chrBank0 ∧ t._chrBank1 = s._chrBank1 ∧ t._prgBank = s._prgBank ∧
      t._rom = s._rom ∧ t._chrRam = s._chrRam ∧
      t._accumulator = 0 ∧ t._writeCount = 0 := by
  refine ⟨_, SxRom.prg_storeb_fifth s a v ha hv hwc, ?_⟩
  have hb : v &&& 1 = 0 ∨ v &&& 1 = 1 := by
    rw [Nat.and_one_is_mod]
    omega
  simp only [SxRom.commit, if_pos ha2]
  generalize s._accumulator = acc at hacc ⊢
  rcases hb with hb | hb <;> rw [hb] <;> interval_cases acc <;> decide

theorem SxRom.control_commit_witness :
    ∃ t, SxRom.prg_storeb
        { SxRom.ctor (bankRom 8) with _writeCount := 4, _accumulator := 0x0A, _prgBank := 6 }
        0x9FFF 0x01 = some t ∧
      t.Mirroring = NameTableMirroring.Vertical ∧ t._slotSelect = false ∧
      t._prgSize = PrgSize.Size16k ∧ t._chrMode = ChrMode.Mode4k ∧
      t._prgBank = 6 ∧ t._accumulator = 0 ∧ t._writeCount = 0 := by
  obtain ⟨t, h, -, -, m2, -, hs, hp, hc, -, -, hb, -, -, hacc, hwc⟩ :=
    SxRom.control_commit
      { SxRom.ctor (bankRom 8) with _writeCount := 4, _accumulator := 0x0A, _prgBank := 6 }
      0x9FFF 0x01 (by decide) (by decide) (by decide) rfl (by decide)
  exact ⟨t, h, m2 (by decide), hs.trans (by decide), hp.trans (by decide),
    hc.trans (by decide), hb, hacc, hwc⟩

theorem xor_one_shiftRight (b : Nat) : (b ^^^ 1) >>> 1 = b >>> 1 := by
  apply Nat.eq_of_testBit_eq
  intro i
  rw [Nat.testBit_shiftRight, Nat.testBit_shiftRight, Nat.testBit_xor]
  have h : Nat.testBit 1 (1 + i) = false := by
    rw [Nat.add_comm, Nat.testBit_succ]
    exact Nat.zero_testBit i
  rw [h, Bool.xor_false]

/-- C10: for every SxRom state and every address `a` in 0x8000..0xFFFF, `prg_loadb(a)`
reads PRG-ROM at: `(_prgBank >> 1) * 0x8000 + (a & 0x7FFF)` in 32 KiB mode, the same for
`_prgBank` and `_prgBank xor 1`; in 16 KiB mode below 0xC000, `a & 0x3FFF` when
`_slotSelect` is false and `_prgBank * 0x4000 + (a & 0x3FFF)` when it is true; in 16 KiB
mode from 0xC000 on, `_prgBank * 0x4000 + (a & 0x3FFF)` when `_slotSelect` is false and
`(PrgRomSize - 1) * 0x4000 + (a & 0x3FFF)` when it is true. -/
theorem SxRom.prg_loadb_physical (s : SxRom) (a : Nat) (ha : 0x8000 ≤ a) (_ha2 : a ≤ 0xFFFF) :
    (s._prgSize = PrgSize.Size32k →
      SxRom.prg_loadb s a = s._rom.PrgRom[(s._prgBank >>> 1) * 0x8000 + (a &&& 0x7FFF)]? ∧
      SxRom.prg_loadb { s with _prgBank := s._prgBank ^^^ 1 } a = SxRom.prg_loadb s a) ∧
    (s._prgSize = PrgSize.Size16k → a < 0xC000 → s._slotSelect = false →
      SxRom.prg_loadb s a = s._rom.PrgRom[a &&& 0x3FFF]?) ∧
    (s._prgSize = PrgSize.Size16k → a < 0xC000 → s._slotSelect = true →
      SxRom.prg_loadb s a = s._rom.PrgRom[s._prgBank * 0x4000 + (a &&& 0x3FFF)]?) ∧
    (s._prgSize = PrgSize.Size16k → 0xC000 ≤ a → s._slotSelect = false →
      SxRom.prg_loadb s a = s._rom.PrgRom[s._prgBank * 0x4000 + (a &&& 0x3FFF)]?) ∧
    (s._prgSize = PrgSize.Size16k → 0xC000 ≤ a → s._slotSelect = true →
      SxRom.prg_loadb s a =
        vecLoad s._rom.PrgRom
          (((s._rom.Header.PrgRomSize : Int) - 1) * 0x4000 + ((a &&& 0x3FFF : Nat) : Int)) ∧
      (1 ≤ s._rom.Header.PrgRomSize →
        SxRom.prg_loadb s a =
          s._rom.PrgRom[(s._rom.Header.PrgRomSize - 1) * 0x4000 + (a &&& 0x3FFF)]?)) := by
  have h1 : ¬ a < 0x8000 := by omega
  refine ⟨?_, ?_, ?_, ?_, ?_⟩
  · intro hm
    have e : SxRom.prg_loadb s a =
        s._rom.PrgRom[(s._prgBank >>> 1) * 0x8000 + (a &&& 0x7FFF)]? := by
      simp only [SxRom.prg_loadb, if_neg h1, hm]
      rw [vecLoad_natCast, Nat.mul_assoc]
    refine ⟨e, ?_⟩
    rw [e]
    simp only [SxRom.prg_loadb, if_neg h1, hm]
    rw [vecLoad_natCast, Nat.mul_assoc, xor_one_shiftRight]
  · intro hm h2 hs
    simp only [SxRom.prg_loadb, if_neg h1, hm, if_pos h2, hs, Bool.not_false, if_true]
    rw [vecLoad_natCast]
  · intro hm h2 hs
    simp only [SxRom.prg_loadb, if_neg h1, hm, if_pos h2, hs, Bool.not_true,
      Bool.false_eq_true, if_false]
    rw [vecLoad_natCast]
  · intro hm h2 hs
    have n2 : ¬ a < 0xc000 := by omega
    simp only [SxRom.prg_loadb, if_neg h1, hm, if_neg n2, hs, Bool.not_false, if_true]
    rw [vecLoad_natCast]
  · intro hm h2 hs
    have n2 : ¬ a < 0xc000 := by omega
    have e : SxRom.prg_loadb s a =
        vecLoad s._rom.PrgRom
          (((s._rom.Header.PrgRomSize : Int) - 1) * 0x4000 + ((a &&& 0x3FFF : Nat) : Int)) := by
      simp only [SxRom.prg_loadb, if_neg h1, hm, if_neg n2, hs, Bool.not_true,
        Bool.false_eq_true, if_false]
    refine ⟨e, ?_⟩
    intro hn
    rw [e, lastBank_index _ _ hn, vecLoad_natCast]

theorem SxRom.prg_loadb_physical_witness :
    SxRom.prg_loadb
        { SxRom.ctor (bankRom 8) with _prgSize := PrgSize.Size32k, _prgBank := 5 } 0x9234 =
      some 4 ∧
    SxRom.prg_loadb
        { SxRom.ctor (bankRom 8) with _prgSize := PrgSize.Size32k, _prgBank := 5 ^^^ 1 }
        0x9234 = some 4 := by
  obtain ⟨h32, -⟩ := SxRom.prg_loadb_physical
    { SxRom.ctor (bankRom 8) with _prgSize := PrgSize.Size32k, _prgBank := 5 } 0x9234
    (by decide) (by decide)
  obtain ⟨e1, e2⟩ := h32 rfl
  have e3 : SxRom.prg_loadb
      { SxRom.ctor (bankRom 8) with _prgSize := PrgSize.Size32k, _prgBank := 5 } 0x9234 =
      some 4 := by
    rw [e1]
    exact bankRom_PrgRom_at 8 _ 4 (by decide) (by decide)
  exact ⟨e3, e2.trans e3⟩

theorem MemoryMap.routes_by_address_witness :
    MemoryMap.loadb
        { ppu := nullDevice, apu := nullDevice, input := nullDevice,
          mapper := UNRom.asMapper }
        { _ram := Ram.storeb Ram.ctor 0x0005 0x42, _ppu := (), _apu := (), _input := (),
          _mapper := UNRom.ctor (bankRom 8) [] }
        0x1805 =
      some (0x42,
        { _ram := Ram.storeb Ram.ctor 0x0005 0x42, _ppu := (), _apu := (), _input := (),
          _mapper := UNRom.ctor (bankRom 8) [] }) :=
  ((MemoryMap.routes_by_address
      { ppu := nullDevice, apu := nullDevice, input := nullDevice, mapper := UNRom.asMapper }
      { _ram := Ram.storeb Ram.ctor 0x0005 0x42, _ppu := (), _apu := (), _input := (),
        _mapper := UNRom.ctor (bankRom 8) [] }
      0x1805 0).1 (by decide)).1

/-! ## SxRom: the CHR window -/

theorem chrBankRom_ChrRom_at (m n c i b : Nat) (h : i < c * 0x2000) (hb : i / 0x2000 = b) :
    (chrBankRom m n c).ChrRom[i]? = some b := by
  show ((List.range (c * 0x2000)).map (fun i => i / 0x2000))[i]? = some b
  rw [List.getElem?_map, List.getElem?_range h, ← hb]
  rfl

theorem chrBankRom_PrgRom_at (m n c i b : Nat) (h : i < n * 0x4000) (hb : i / 0x4000 = b) :
    (chrBankRom m n c).PrgRom[i]? = some b := by
  show ((List.range (n * 0x4000)).map (fun i => i / 0x4000))[i]? = some b
  rw [List.getElem?_map, List.getElem?_range h, ← hb]
  rfl

theorem vecStore_in (v : List Nat) (i x : Nat) (h : i < v.length) :
    vecStore v i x = some (v.set i x) := by
  simp only [vecStore, if_pos h]

theorem vecStore_out (v : List Nat) (i x : Nat) (h : ¬ i < v.length) :
    vecStore v i x = none := by
  simp only [vecStore, if_neg h]

/-- C11, amended: for every SxRom state (registers of 8 bits) and every pattern address
`p` in 0..0x1FFF, the offset `ChrBufAddress(p)` is `_chrBank0 * 0x1000 + p` in 4 KiB mode
below 0x1000, `_chrBank1 * 0x1000 + (p & 0x0FFF)` in 4 KiB mode from 0x1000 on, and
`(_chrBank0 >> 1) * 0x2000 + p` in 8 KiB mode, where it depends neither on `_chrBank1`
nor on the low bit of `_chrBank0`.  `chr_loadb` reads the CHR buffer at that offset and
`chr_storeb` writes it there: whenever the offset lies inside the CHR buffer the store
succeeds and a following `chr_loadb(p)` in the same mapper state returns the stored
value. -/
theorem SxRom.chr_offset_and_roundtrip (s : SxRom) (p v : Nat) (hp : p ≤ 0x1FFF)
    (h0 : s._chrBank0 < 256) (h1 : s._chrBank1 < 256) :
    (s._chrMode = ChrMode.Mode4k → p < 0x1000 →
      SxRom.ChrBufAddress s p = s._chrBank0 * 0x1000 + p) ∧
    (s._chrMode = ChrMode.Mode4k → 0x1000 ≤ p →
      SxRom.ChrBufAddress s p = s._chrBank1 * 0x1000 + (p &&& 0x0FFF)) ∧
    (s._chrMode = ChrMode.Mode8k →
      SxRom.ChrBufAddress s p = (s._chrBank0 >>> 1) * 0x2000 + p ∧
      (∀ b, SxRom.ChrBufAddress { s with _chrBank1 := b } p = SxRom.ChrBufAddress s p) ∧
      SxRom.ChrBufAddress { s with _chrBank0 := s._chrBank0 ^^^ 1 } p =
        SxRom.ChrBufAddress s p) ∧
    SxRom.chr_loadb s p = (SxRom.chrBuf s)[SxRom.ChrBufAddress s p]? ∧
    (SxRom.ChrBufAddress s p < (SxRom.chrBuf s).length →
      ∃ t, SxRom.chr_storeb s p v = some t ∧
        SxRom.chrBuf t = (SxRom.chrBuf s).set (SxRom.ChrBufAddress s p) v ∧
        SxRom.chr_loadb t p = some v) := by
  have hsh : s._chrBank0 >>> 1 ≤ s._chrBank0 := by
    rw [Nat.shiftRight_eq_div_pow]
    exact Nat.div_le_self _ _
  have hm : p &&& 0x0FFF ≤ p := Nat.and_le_left
  refine ⟨?_, ?_, ?_, rfl, ?_⟩
  · intro hmode hlt
    simp only [SxRom.ChrBufAddress, hmode, if_pos hlt]
    apply Nat.mod_eq_of_lt
    omega
  · intro hmode hge
    have n1 : ¬ p < 0x1000 := by omega
    simp only [SxRom.ChrBufAddress, hmode, if_neg n1]
    apply Nat.mod_eq_of_lt
    omega
  · intro hmode
    refine ⟨?_, ?_, ?_⟩
    · simp only [SxRom.ChrBufAddress, hmode]
      apply Nat.mod_eq_of_lt
      omega
    · intro b
      simp only [SxRom.ChrBufAddress, hmode]
    · simp only [SxRom.ChrBufAddress, hmode, xor_one_shiftRight]
  · intro hin
    by_cases hrom : s._rom.Header.ChrRomSize > 0
    · have hb : SxRom.chrBuf s = s._rom.ChrRom := by simp only [SxRom.chrBuf, if_pos hrom]
      rw [hb] at hin ⊢
      refine ⟨{ s with _rom := { s._rom with
          ChrRom := s._rom.ChrRom.set (SxRom.ChrBufAddress s p) v } }, ?_, ?_, ?_⟩
      · simp only [SxRom.chr_storeb, if_pos hrom, vecStore_in _ _ _ hin, Option.map_some']
      · simp only [SxRom.chrBuf, if_pos hrom]
      · show (SxRom.chrBuf _)[SxRom.ChrBufAddress s p]? = some v
        simp only [SxRom.chrBuf, if_pos hrom]
        exact List.getElem?_set_self hin
    · have hb : SxRom.chrBuf s = s._chrRam := by simp only [SxRom.chrBuf, if_neg hrom]
      rw [hb] at hin ⊢
      refine ⟨{ s with _chrRam := s._chrRam.set (SxRom.ChrBufAddress s p) v }, ?_, ?_, ?_⟩
      · simp only [SxRom.chr_storeb, if_neg hrom, vecStore_in _ _ _ hin, Option.map_some']
      · simp only [SxRom.chrBuf, if_neg hrom]
      · show (SxRom.chrBuf _)[SxRom.ChrBufAddress s p]? = some v
        simp only [SxRom.chrBuf, if_neg hrom]
        exact List.getElem?_set_self hin

theorem SxRom.chr_storeb_outside (s : SxRom) (p v : Nat)
    (hout : ¬ SxRom.ChrBufAddress s p < (SxRom.chrBuf s).length) :
    SxRom.chr_storeb s p v = none := by
  by_cases hrom : s._rom.Header.ChrRomSize > 0
  · have hb : SxRom.chrBuf s = s._rom.ChrRom := by simp only [SxRom.chrBuf, if_pos hrom]
    rw [hb] at hout
    simp only [SxRom.chr_storeb, if_pos hrom, vecStore_out _ _ _ hout, Option.map_none']
  · have hb : SxRom.chrBuf s = s._chrRam := by simp only [SxRom.chrBuf, if_neg hrom]
    rw [hb] at hout
    simp only [SxRom.chr_storeb, if_neg hrom, vecStore_out _ _ _ hout, Option.map_none']

theorem SxRom.ctor_chrRam_length (rom : Rom) (h : rom.Header.ChrRomSize = 0) :
    (SxRom.chrBuf (SxRom.ctor rom)).length = 0x2000 := by
  have n0 : ¬ rom.Header.ChrRomSize > 0 := by omega
  simp only [SxRom.chrBuf, SxRom.ctor, if_neg n0, List.length_replicate]

theorem SxRom.chr_offset_and_roundtrip_witness :
    SxRom.ChrBufAddress
        { SxRom.ctor (bankRom 8) with _chrMode := ChrMode.Mode4k, _chrBank1 := 1 } 0x1234 =
      0x1234 ∧
    ∃ t, SxRom.chr_storeb
        { SxRom.ctor (bankRom 8) with _chrMode := ChrMode.Mode4k, _chrBank1 := 1 }
        0x1234 0x5A = some t ∧
      SxRom.chr_loadb t 0x1234 = some 0x5A := by
  obtain ⟨-, hoff, -, -, hst⟩ := SxRom.chr_offset_and_roundtrip
    { SxRom.ctor (bankRom 8) with _chrMode := ChrMode.Mode4k, _chrBank1 := 1 }
    0x1234 0x5A (by decide) (by decide) (by decide)
  have e : SxRom.ChrBufAddress
      { SxRom.ctor (bankRom 8) with _chrMode := ChrMode.Mode4k, _chrBank1 := 1 } 0x1234 =
      0x1234 := hoff rfl (by decide)
  refine ⟨e, ?_⟩
  have hlen : (SxRom.chrBuf
      { SxRom.ctor (bankRom 8) with _chrMode := ChrMode.Mode4k, _chrBank1 := 1 }).length =
      0x2000 := SxRom.ctor_chrRam_length (bankRom 8) rfl
  obtain ⟨t, h1, -, h3⟩ := hst (by rw [e, hlen]; decide)
  exact ⟨t, h1, h3⟩

/-- Counterexample to the round trip of C11 taken over every mapper state: on a
cartridge without CHR-ROM (8 KiB of CHR-RAM), five stores at 0xA000 that shift in the
value 2 lead from the constructed state to `_chrBank0 = 2` in 8 KiB mode.  There the
offset of pattern address 0 is `(2 >> 1) * 0x2000 + 0 = 0x2000`, the length of the CHR
buffer, so `chr_storeb(0, 0xAB)` has no defined result and no following `chr_loadb(0)`
returns `0xAB`. -/
theorem SxRom.chr_roundtrip_needs_offset_in_buffer :
    SxRom.prg_storeb_all (SxRom.ctor (bankRom 8))
        [(0xA000, 0x00), (0xA000, 0x01), (0xA000, 0x00), (0xA000, 0x00), (0xA000, 0x00)] =
      some { SxRom.ctor (bankRom 8) with _chrBank0 := 2 } ∧
    SxRom.ChrBufAddress { SxRom.ctor (bankRom 8) with _chrBank0 := 2 } 0 =
      (2 >>> 1) * 0x2000 + 0 ∧
    (SxRom.chrBuf { SxRom.ctor (bankRom 8) with _chrBank0 := 2 }).length = 0x2000 ∧
    ¬ ∃ t, SxRom.chr_storeb { SxRom.ctor (bankRom 8) with _chrBank0 := 2 } 0 0xAB = some t ∧
        SxRom.chr_loadb t 0 = some 0xAB := by
  have hlen : (SxRom.chrBuf { SxRom.ctor (bankRom 8) with _chrBank0 := 2 }).length = 0x2000 :=
    SxRom.ctor_chrRam_length (bankRom 8) rfl
  have hoff : SxRom.ChrBufAddress { SxRom.ctor (bankRom 8) with _chrBank0 := 2 } 0 =
      (2 >>> 1) * 0x2000 + 0 := by decide
  refine ⟨rfl, hoff, hlen, ?_⟩
  rintro ⟨t, h, -⟩
  rw [SxRom.chr_storeb_outside _ 0 0xAB (by rw [hoff, hlen]; decide)] at h
  cases h

/-! ## CNRom -/

theorem CNRom.prg_storeb_all_toNRom (ws : List (Nat × Nat)) (s : CNRom) :
    (CNRom.prg_storeb_all s ws).toNRom = s.toNRom := by
  induction ws generalizing s with
  | nil => rfl
  | cons w ws ih =>
    show (CNRom.prg_storeb_all (CNRom.prg_storeb s w.1 w.2) ws).toNRom = s.toNRom
    rw [ih]
    rfl

/-- C12: for every CNRom state, every address `a >= 0x8000` and every value `v`, after
`prg_storeb(a, v)` the latch `_chrBank` is `v & 0x03` and `chr_loadb(p)`, for every `p` in
0..0x1FFF, reads CHR-ROM at `(v & 0x03) * 0x2000 + p`; and PRG is fixed: after any
sequence of `prg_storeb` calls `prg_loadb(r)` returns, for every `r >= 0x8000`, what it
returned before. -/
theorem CNRom.prg_storeb_selects_chr_bank (s : CNRom) (a v p : Nat) (_ha : 0x8000 ≤ a)
    (hp : p ≤ 0x1FFF) :
    (CNRom.prg_storeb s a v)._chrBank = v &&& 0x03 ∧
    CNRom.chr_loadb (CNRom.prg_storeb s a v) p =
      s._rom.ChrRom[(v &&& 0x03) * 0x2000 + p]? ∧
    (∀ (ws : List (Nat × Nat)) (r : Nat), 0x8000 ≤ r →
      CNRom.prg_loadb (CNRom.prg_storeb_all s ws) r = CNRom.prg_loadb s r) := by
  refine ⟨rfl, ?_, ?_⟩
  · have h2 : v &&& 0x03 ≤ 0x03 := Nat.and_le_right
    have h4 : ((v &&& 0x03) * 0x2000 + p) % 2 ^ 32 = (v &&& 0x03) * 0x2000 + p := by
      apply Nat.mod_eq_of_lt
      omega
    simp only [CNRom.chr_loadb, CNRom.prg_storeb, CHR_ROM_BANK_SIZE]
    rw [h4, vecLoad_natCast]
  · intro ws r _
    simp only [CNRom.prg_loadb, CNRom.prg_storeb_all_toNRom]

theorem CNRom.prg_storeb_selects_chr_bank_witness :
    (CNRom.prg_storeb (CNRom.ctor (chrBankRom 3 2 4) []) 0x8000 0xFE)._chrBank = 2 ∧
    CNRom.chr_loadb (CNRom.prg_storeb (CNRom.ctor (chrBankRom 3 2 4) []) 0x8000 0xFE) 0x1FFF =
      some 2 ∧
    CNRom.prg_loadb
        (CNRom.prg_storeb_all (CNRom.ctor (chrBankRom 3 2 4) [])
          [(0x8000, 0xFE), (0xFFFF, 0x01), (0x6000, 0x03)]) 0xC000 = some 1 := by
  obtain ⟨h1, h2, h3⟩ := CNRom.prg_storeb_selects_chr_bank (CNRom.ctor (chrBankRom 3 2 4) [])
    0x8000 0xFE 0x1FFF (by decide) (by decide)
  refine ⟨h1, ?_, ?_⟩
  · rw [h2]
    exact chrBankRom_ChrRom_at 3 2 4 _ 2 (by decide) (by decide)
  · rw [h3 _ 0xC000 (by decide)]
    have n1 : ¬ (0xC000 < 0x8000) := by decide
    have n2 : ¬ ((CNRom.ctor (chrBankRom 3 2 4) [])._rom.Header.PrgRomSize = 1) := by decide
    simp only [CNRom.prg_loadb, NRom.prg_loadb, if_neg n1, if_neg n2]
    rw [vecLoad_natCast]
    exact chrBankRom_PrgRom_at 3 2 4 _ 1 (by decide) (by decide)

/-! ## NRom -/

theorem shiftRight_xor (a b k : Nat) : (a ^^^ b) >>> k = (a >>> k) ^^^ (b >>> k) := by
  apply Nat.eq_of_testBit_eq
  intro i
  simp only [Nat.testBit_shiftRight, Nat.testBit_xor]

theorem xor_4000_lt_8000 (a : Nat) : a ^^^ 0x4000 < 0x8000 ↔ a < 0x8000 := by
  have e : (a ^^^ 0x4000) >>> 15 = a >>> 15 := by
    rw [shiftRight_xor, show 0x4000 >>> 15 = 0 by decide, Nat.xor_zero]
  rw [Nat.shiftRight_eq_div_pow, Nat.shiftRight_eq_div_pow] at e
  have p : (2 : Nat) ^ 15 = 32768 := by decide
  rw [p] at e
  omega

theorem and_1fff (a : Nat) : a &&& 0x1fff = a % 0x2000 :=
  Nat.and_pow_two_sub_one_eq_mod a 13

theorem and_7fff_lt (r : Nat) : r &&& 0x7fff < 0x8000 :=
  Nat.and_lt_two_pow r (by decide : 0x7fff < 2 ^ 15)

/-- C13: for every NRom state and every address `a` in 0x8000..0xFFFF: with
`PrgRomSize = 1`, `prg_loadb(a)` reads PRG-ROM at `a & 0x3FFF`, so it equals
`prg_loadb(a xor 0x4000)`; with `PrgRomSize = 2` it reads PRG-ROM at `a & 0x7FFF`.  In
both cases the index is below `PrgRomSize * 0x4000`, so on a cartridge whose PRG-ROM has
that many bytes the read returns a byte. -/
theorem NRom.prg_loadb_rom (s : NRom) (a : Nat) (ha : 0x8000 ≤ a) (_ha2 : a ≤ 0xFFFF) :
    (s._rom.Header.PrgRomSize = 1 →
      NRom.prg_loadb s a = s._rom.PrgRom[a &&& 0x3FFF]? ∧
      NRom.prg_loadb s a = NRom.prg_loadb s (a ^^^ 0x4000) ∧
      a &&& 0x3FFF < s._rom.Header.PrgRomSize * 0x4000) ∧
    (s._rom.Header.PrgRomSize = 2 →
      NRom.prg_loadb s a = s._rom.PrgRom[a &&& 0x7FFF]? ∧
      a &&& 0x7FFF < s._rom.Header.PrgRomSize * 0x4000) ∧
    (s._rom.Header.PrgRomSize = 1 ∨ s._rom.Header.PrgRomSize = 2 →
      s._rom.PrgRom.length = s._rom.Header.PrgRomSize * 0x4000 →
      ∃ b, NRom.prg_loadb s a = some b) := by
  have n1 : ¬ a < 0x8000 := by omega
  have n2 : ¬ (a ^^^ 0x4000) < 0x8000 := by
    rw [xor_4000_lt_8000]
    exact n1
  have h3 := and_3fff_lt a
  have h7 := and_7fff_lt a
  have one : s._rom.Header.PrgRomSize = 1 →
      NRom.prg_loadb s a = s._rom.PrgRom[a &&& 0x3FFF]? := by
    intro h
    simp only [NRom.prg_loadb, if_neg n1, if_pos h]
    rw [vecLoad_natCast]
  have two : s._rom.Header.PrgRomSize = 2 →
      NRom.prg_loadb s a = s._rom.PrgRom[a &&& 0x7FFF]? := by
    intro h
    have ne1 : ¬ s._rom.Header.PrgRomSize = 1 := by omega
    simp only [NRom.prg_loadb, if_neg n1, if_neg ne1]
    rw [vecLoad_natCast]
  refine ⟨?_, ?_, ?_⟩
  · intro h
    refine ⟨one h, ?_, by omega⟩
    rw [one h]
    simp only [NRom.prg_loadb, if_neg n2, if_pos h]
    rw [vecLoad_natCast, Nat.and_xor_distrib_right,
      show 0x4000 &&& 0x3fff = 0 by decide, Nat.xor_zero]
  · intro h
    exact ⟨two h, by omega⟩
  · intro h hlen
    rcases h with h | h
    · have hlt : a &&& 0x3FFF < s._rom.PrgRom.length := by omega
      exact ⟨_, (one h).trans (List.getElem?_eq_getElem hlt)⟩
    · have hlt : a &&& 0x7FFF < s._rom.PrgRom.length := by omega
      exact ⟨_, (two h).trans (List.getElem?_eq_getElem hlt)⟩

theorem NRom.prg_loadb_rom_witness :
    NRom.prg_loadb (NRom.ctor (chrBankRom 0 1 1) []) 0xC123 =
      (chrBankRom 0 1 1).PrgRom[0x0123]? ∧
    NRom.prg_loadb (NRom.ctor (chrBankRom 0 1 1) []) 0xC123 =
      NRom.prg_loadb (NRom.ctor (chrBankRom 0 1 1) []) 0x8123 ∧
    NRom.prg_loadb (NRom.ctor (chrBankRom 0 1 1) []) 0xC123 = some 0 := by
  obtain ⟨h1, -, -⟩ := NRom.prg_loadb_rom (NRom.ctor (chrBankRom 0 1 1) []) 0xC123
    (by decide) (by decide)
  obtain ⟨e1, e2, -⟩ := h1 rfl
  rw [show 0xC123 &&& 0x3FFF = 0x0123 by decide] at e1
  rw [show 0xC123 ^^^ 0x4000 = 0x8123 by decide] at e2
  refine ⟨e1, e2, ?_⟩
  rw [e1]
  exact chrBankRom_PrgRom_at 0 1 1 _ 0 (by decide) (by decide)

/-- C14: for every NRom state with an 8 KiB PRG-RAM vector, every `a`, `b` in
0x6000..0x7FFF and every value `v`: `prg_storeb(a, v)` succeeds, and afterwards
`prg_loadb(b)` returns `v` when `b = a` and the byte it returned before otherwise; CHR
reads are unchanged.  For every `a >= 0x8000`, `prg_storeb(a, v)` returns the state
unchanged, so every later read returns what it returned before. -/
theorem NRom.prg_ram_store_load (s : NRom) (a b v : Nat)
    (hlen : s._rom.PrgRam.length = 0x2000)
    (ha : 0x6000 ≤ a) (ha2 : a ≤ 0x7FFF) (hb : 0x6000 ≤ b) (hb2 : b ≤ 0x7FFF) :
    (∃ t old, NRom.prg_storeb s a v = some t ∧
      NRom.prg_loadb s b = some old ∧
      NRom.prg_loadb t b = some (if b = a then v else old) ∧
      (∀ p, NRom.chr_loadb t p = NRom.chr_loadb s p)) ∧
    (∀ a2 v2, 0x8000 ≤ a2 → NRom.prg_storeb s a2 v2 = some s) := by
  have la : a < 0x8000 := by omega
  have lb : b < 0x8000 := by omega
  have ia : a % 0x2000 < s._rom.PrgRam.length := by omega
  have ib : b % 0x2000 < s._rom.PrgRam.length := by omega
  refine ⟨⟨{ s with _rom := { s._rom with PrgRam := s._rom.PrgRam.set (a % 0x2000) v } },
    s._rom.PrgRam[b % 0x2000], ?_, ?_, ?_, ?_⟩, ?_⟩
  · simp only [NRom.prg_storeb, if_pos la, and_1fff, vecStore_in _ _ _ ia, Option.map_some']
  · simp only [NRom.prg_loadb, if_pos lb, and_1fff]
    rw [vecLoad_natCast]
    exact List.getElem?_eq_getElem ib
  · simp only [NRom.prg_loadb, if_pos lb, and_1fff]
    rw [vecLoad_natCast, List.getElem?_set]
    by_cases e : b = a
    · subst e
      simp only [if_pos ia, if_true]
    · have ne : ¬ a % 0x2000 = b % 0x2000 := by omega
      simp only [if_neg ne, if_neg e]
      exact List.getElem?_eq_getElem ib
  · intro p
    rfl
  · intro a2 v2 h2
    have n : ¬ a2 < 0x8000 := by omega
    simp only [NRom.prg_storeb, if_neg n]

theorem NRom.prg_ram_store_load_witness :
    ∃ t, NRom.prg_storeb (NRom.ctor (chrBankRom 0 1 1) []) 0x6010 0x77 = some t ∧
      NRom.prg_loadb t 0x6010 = some 0x77 ∧
      NRom.prg_loadb t 0x7010 = NRom.prg_loadb (NRom.ctor (chrBankRom 0 1 1) []) 0x7010 := by
  obtain ⟨⟨t, old, h1, h2, h3, -⟩, -⟩ := NRom.prg_ram_store_load
    (NRom.ctor (chrBankRom 0 1 1) []) 0x6010 0x6010 0x77 (List.length_replicate _ _)
    (by decide) (by decide) (by decide) (by decide)
  obtain ⟨⟨t2, old2, k1, k2, k3, -⟩, -⟩ := NRom.prg_ram_store_load
    (NRom.ctor (chrBankRom 0 1 1) []) 0x6010 0x7010 0x77 (List.length_replicate _ _)
    (by decide) (by decide) (by decide) (by decide)
  have e : t2 = t := Option.some.inj (k1.symm.trans h1)
  subst e
  refine ⟨t2, h1, ?_, ?_⟩
  · rw [h3, if_pos rfl]
  · rw [k3, k2, if_neg (by decide)]

theorem NRom.chr_storeb_all_defined (ws : List (Nat × Nat)) (s : NRom)
    (hlen : s._chrRam.length = 0x2000) (hws : ∀ w ∈ ws, w.1 ≤ 0x1FFF) :
    ∃ t, NRom.chr_storeb_all s ws = some t ∧ t._rom = s._rom ∧
      t._chrRam.length = 0x2000 := by
  induction ws generalizing s with
  | nil => exact ⟨s, rfl, rfl, hlen⟩
  | cons w ws ih =>
    have hw : w.1 ≤ 0x1FFF := hws w (List.mem_cons_self _ _)
    have hin : w.1 < s._chrRam.length := by omega
    have hrest : ∀ x ∈ ws, x.1 ≤ 0x1FFF := fun x hx => hws x (List.mem_cons_of_mem _ hx)
    obtain ⟨t, h1, h2, h3⟩ := ih { s with _chrRam := s._chrRam.set w.1 w.2 }
      (by simp only [List.length_set]; exact hlen) hrest
    refine ⟨t, ?_, h2, h3⟩
    simp only [NRom.chr_storeb_all, NRom.chr_storeb, vecStore_in _ _ _ hin, Option.map_some',
      Option.some_bind]
    exact h1

/-- C15: for every NRom state with an 8 KiB CHR-RAM array and pattern addresses `p`, `q`
in 0..0x1FFF.  With CHR-ROM present (`ChrRomSize > 0`), `chr_loadb(p)` reads CHR-ROM at
`p` (a byte, when CHR-ROM holds `ChrRomSize` banks), and after any sequence of
`chr_storeb` calls at pattern addresses, which all succeed, it returns the same.  With
CHR-ROM absent, `chr_storeb(p, v)` succeeds and afterwards `chr_loadb(q)` returns `v`
when `q = p` and the byte it returned before otherwise. -/
theorem NRom.chr_load_store (s : NRom) (p q v : Nat) (hlen : s._chrRam.length = 0x2000)
    (hp : p ≤ 0x1FFF) (hq : q ≤ 0x1FFF) :
    (s._rom.Header.ChrRomSize > 0 →
      NRom.chr_loadb s p = s._rom.ChrRom[p]? ∧
      (s._rom.ChrRom.length = s._rom.Header.ChrRomSize * 0x2000 →
        ∃ b, NRom.chr_loadb s p = some b) ∧
      (∀ ws : List (Nat × Nat), (∀ w ∈ ws, w.1 ≤ 0x1FFF) →
        ∃ t, NRom.chr_storeb_all s ws = some t ∧ NRom.chr_loadb t p = NRom.chr_loadb s p)) ∧
    (s._rom.Header.ChrRomSize = 0 →
      ∃ t old, NRom.chr_storeb s p v = some t ∧
        NRom.chr_loadb s q = some old ∧
        NRom.chr_loadb t q = some (if q = p then v else old)) := by
  have ip : p < s._chrRam.length := by omega
  have iq : q < s._chrRam.length := by omega
  refine ⟨?_, ?_⟩
  · intro hrom
    have e : NRom.chr_loadb s p = s._rom.ChrRom[p]? := by
      simp only [NRom.chr_loadb, if_pos hrom]
    refine ⟨e, ?_, ?_⟩
    · intro hl
      have hlt : p < s._rom.ChrRom.length := by
        rw [hl]
        have : 1 ≤ s._rom.Header.ChrRomSize := hrom
        omega
      exact ⟨_, e.trans (List.getElem?_eq_getElem hlt)⟩
    · intro ws hws
      obtain ⟨t, h1, h2, -⟩ := NRom.chr_storeb_all_defined ws s hlen hws
      refine ⟨t, h1, ?_⟩
      have hrom2 : t._rom.Header.ChrRomSize > 0 := by
        rw [h2]
        exact hrom
      simp only [NRom.chr_loadb, if_pos hrom, if_pos hrom2, h2]
  · intro hram
    have n0 : ¬ s._rom.Header.ChrRomSize > 0 := by omega
    refine ⟨{ s with _chrRam := s._chrRam.set p v }, s._chrRam[q], ?_, ?_, ?_⟩
    · simp only [NRom.chr_storeb, vecStore_in _ _ _ ip, Option.map_some']
    · simp only [NRom.chr_loadb, if_neg n0]
      exact List.getElem?_eq_getElem iq
    · simp only [NRom.chr_loadb, if_neg n0]
      rw [List.getElem?_set]
      by_cases e : q = p
      · subst e
        simp only [if_pos ip, if_true]
      · have ne : ¬ p = q := fun x => e x.symm
        simp only [if_neg ne, if_neg e]
        exact List.getElem?_eq_getElem iq

theorem NRom.chr_load_store_witness :
    (∃ t, NRom.chr_storeb_all (NRom.ctor (chrBankRom 0 1 1) (List.replicate 0x2000 0))
        [(0x0010, 0x77), (0x1FFF, 0x01)] = some t ∧
      NRom.chr_loadb t 0x0010 =
        NRom.chr_loadb (NRom.ctor (chrBankRom 0 1 1) (List.replicate 0x2000 0)) 0x0010) ∧
    (∃ t, NRom.chr_storeb (NRom.ctor (chrBankRom 0 1 0) (List.replicate 0x2000 0))
        0x0010 0x77 = some t ∧
      NRom.chr_loadb t 0x0010 = some 0x77) := by
  obtain ⟨h1, -⟩ := NRom.chr_load_store
    (NRom.ctor (chrBankRom 0 1 1) (List.replicate 0x2000 0)) 0x0010 0x0010 0x77
    (List.length_replicate _ _) (by decide) (by decide)
  obtain ⟨-, h2⟩ := NRom.chr_load_store
    (NRom.ctor (chrBankRom 0 1 0) (List.replicate 0x2000 0)) 0x0010 0x0010 0x77
    (List.length_replicate _ _) (by decide) (by decide)
  refine ⟨?_, ?_⟩
  · obtain ⟨-, -, h3⟩ := h1 (by decide)
    apply h3
    intro w hw
    simp only [List.mem_cons, List.mem_singleton, List.not_mem_nil, or_false] at hw
    rcases hw with rfl | rfl <;> decide
  · obtain ⟨t, old, k1, -, k3⟩ := h2 rfl
    refine ⟨t, k1, ?_⟩
    rw [k3, if_pos rfl]

/-! ## The cartridge header and mapper creation -/

theorem strncmp_literal (lit : List Nat) (hnz : ∀ x ∈ lit, x ≠ 0) (s1 : List Nat)
    (hlen : lit.length ≤ s1.length) :
    strncmp s1 lit lit.length = 0 ↔ s1.take lit.length = lit := by
  induction lit generalizing s1 with
  | nil => simp [strncmp]
  | cons x lit ih =>
    cases s1 with
    | nil => simp at hlen
    | cons a s1 =>
      have hx : x ≠ 0 := hnz x (List.mem_cons_self _ _)
      have hrest : ∀ y ∈ lit, y ≠ 0 := fun y hy => hnz y (List.mem_cons_of_mem _ hy)
      have hl : lit.length ≤ s1.length := by
        simp only [List.length_cons] at hlen
        omega
      simp only [List.length_cons, strncmp, List.headD_cons, List.tail_cons, List.take_succ_cons,
        List.cons.injEq]
      by_cases e : a = x
      · subst e
        simp only [ne_eq, not_true_eq_false, if_false, if_neg hx, true_and]
        exact ih hrest s1 hl
      · simp only [ne_eq, e, not_false_eq_true, if_true, false_and, iff_false]
        omega

theorem shr4_and_0f (x : Nat) (h : x < 256) : (x >>> 4) &&& 0x0f = x >>> 4 := by
  interval_cases x <;> rfl

theorem shr4_shl4 (x : Nat) (h : x < 256) : ((x >>> 4) &&& 0x0f) <<< 4 = x &&& 0xF0 := by
  interval_cases x <;> rfl

theorem INesHeader.magic_check (h : INesHeader) :
    strncmp h.bytes NES_MAGIC 4 = 0 ↔ h.bytes.take 4 = NES_MAGIC :=
  strncmp_literal NES_MAGIC (by decide) h.bytes (show (4 : Nat) ≤ 16 by decide)

theorem INesHeader.diskdude_check (h : INesHeader) :
    strncmp (h.bytes.drop 7) DISK_DUDE 9 = 0 ↔ h.bytes.drop 7 = DISK_DUDE :=
  strncmp_literal DISK_DUDE (by decide) (h.bytes.drop 7) (show (9 : Nat) ≤ 9 by decide)

/-- C16: for every 16-byte header (bytes below 256), `ValidateHeader` returns true
exactly when bytes 0..3 are `N`, `E`, `S`, 0x1A.  When it returns true and bytes 7..15
are `DiskDude!`, the header it leaves has bytes 0..6 unchanged and bytes 7..15 zero, and
its `MapperNumber()` is `flags6 >> 4`.  Otherwise (wrong magic, or no such pattern) the
header is left unchanged and `MapperNumber()` is `(flags7 & 0xF0) | (flags6 >> 4)`. -/
theorem INesHeader.ValidateHeader_spec (h : INesHeader) (h6 : h.flags6 < 256)
    (h7 : h.flags7 < 256) :
    ((INesHeader.ValidateHeader h).1 = true ↔ h.bytes.take 4 = NES_MAGIC) ∧
    ((INesHeader.ValidateHeader h).1 = true → h.bytes.drop 7 = DISK_DUDE →
      (INesHeader.ValidateHeader h).2.bytes = h.bytes.take 7 ++ List.replicate 9 0 ∧
      (INesHeader.ValidateHeader h).2.MapperNumber = h.flags6 >>> 4) ∧
    (¬ ((INesHeader.ValidateHeader h).1 = true ∧ h.bytes.drop 7 = DISK_DUDE) →
      (INesHeader.ValidateHeader h).2 = h ∧
      (INesHeader.ValidateHeader h).2.MapperNumber =
        (h.flags7 &&& 0xF0) ||| (h.flags6 >>> 4)) := by
  have mn : h.MapperNumber = (h.flags7 &&& 0xF0) ||| (h.flags6 >>> 4) := by
    simp only [INesHeader.MapperNumber]
    rw [shr4_and_0f _ h6, shr4_shl4 _ h7]
  by_cases hm : strncmp h.bytes NES_MAGIC 4 = 0
  · have hm2 := (INesHeader.magic_check h).1 hm
    by_cases hd : strncmp (h.bytes.drop 7) DISK_DUDE 9 = 0
    · have hd2 := (INesHeader.diskdude_check h).1 hd
      have ev : INesHeader.ValidateHeader h =
          (true, { h with flags7 := 0, PrgRamSize := 0, flags9 := 0, flags10 := 0,
                          zero0 := 0, zero1 := 0, zero2 := 0, zero3 := 0, zero4 := 0 }) := by
        simp only [INesHeader.ValidateHeader, hm, hd, ne_eq, not_true_eq_false, if_false,
          if_true]
      rw [ev]
      refine ⟨⟨fun _ => hm2, fun _ => rfl⟩, ?_, ?_⟩
      · intro _ _
        refine ⟨rfl, ?_⟩
        simp only [INesHeader.MapperNumber]
        rw [shr4_and_0f _ h6]
        simp only [Nat.zero_shiftRight, Nat.zero_and, Nat.zero_shiftLeft, Nat.zero_or]
      · intro hn
        exact absurd ⟨rfl, hd2⟩ hn
    · have hd2 : ¬ h.bytes.drop 7 = DISK_DUDE := fun x => hd ((INesHeader.diskdude_check h).2 x)
      have ev : INesHeader.ValidateHeader h = (true, h) := by
        simp only [INesHeader.ValidateHeader, hm, hd, ne_eq, not_true_eq_false, if_false]
      rw [ev]
      refine ⟨⟨fun _ => hm2, fun _ => rfl⟩, ?_, ?_⟩
      · intro _ x
        exact absurd x hd2
      · intro _
        exact ⟨rfl, mn⟩
  · have hm2 : ¬ h.bytes.take 4 = NES_MAGIC := fun x => hm ((INesHeader.magic_check h).2 x)
    have ev : INesHeader.ValidateHeader h = (false, h) := by
      simp only [INesHeader.ValidateHeader, hm, ne_eq, not_false_eq_true, if_true]
    rw [ev]
    refine ⟨⟨fun x => (by cases x), fun x => absurd x hm2⟩, ?_, ?_⟩
    · intro x
      cases x
    · intro _
      exact ⟨rfl, mn⟩

theorem INesHeader.ValidateHeader_spec_witness :
    (INesHeader.ValidateHeader
        { PrgRomSize := 2, ChrRomSize := 1, flags6 := 0x21, flags7 := 0x44,
          PrgRamSize := 0x69, flags9 := 0x73, flags10 := 0x6B, zero0 := 0x44,
          zero1 := 0x75, zero2 := 0x64, zero3 := 0x65, zero4 := 0x21 }).1 = true ∧
    (INesHeader.ValidateHeader
        { PrgRomSize := 2, ChrRomSize := 1, flags6 := 0x21, flags7 := 0x44,
          PrgRamSize := 0x69, flags9 := 0x73, flags10 := 0x6B, zero0 := 0x44,
          zero1 := 0x75, zero2 := 0x64, zero3 := 0x65, zero4 := 0x21 }).2.bytes =
      [0x4E, 0x45, 0x53, 0x1A, 2, 1, 0x21, 0, 0, 0, 0, 0, 0, 0, 0, 0] ∧
    (INesHeader.ValidateHeader
        { PrgRomSize := 2, ChrRomSize := 1, flags6 := 0x21, flags7 := 0x44,
          PrgRamSize := 0x69, flags9 := 0x73, flags10 := 0x6B, zero0 := 0x44,
          zero1 := 0x75, zero2 := 0x64, zero3 := 0x65, zero4 := 0x21 }).2.MapperNumber = 2 := by
  obtain ⟨h1, h2, -⟩ := INesHeader.ValidateHeader_spec
    { PrgRomSize := 2, ChrRomSize := 1, flags6 := 0x21, flags7 := 0x44,
      PrgRamSize := 0x69, flags9 := 0x73, flags10 := 0x6B, zero0 := 0x44,
      zero1 := 0x75, zero2 := 0x64, zero3 := 0x65, zero4 := 0x21 } (by decide) (by decide)
  have t := h1.2 (by decide)
  obtain ⟨b, m⟩ := h2 t (by decide)
  exact ⟨t, b, m⟩

theorem INesHeader.MapperNumber_le (h : INesHeader) : h.MapperNumber ≤ 255 := by
  have lo : (h.flags6 >>> 4) &&& 0x0f < 2 ^ 4 := Nat.and_lt_two_pow _ (by decide)
  have hi : (h.flags7 >>> 4) &&& 0x0f < 2 ^ 4 := Nat.and_lt_two_pow _ (by decide)
  have hi2 : ((h.flags7 >>> 4) &&& 0x0f) <<< 4 < 2 ^ 8 := by
    rw [Nat.shiftLeft_eq]
    omega
  have lo2 : (h.flags6 >>> 4) &&& 0x0f < 2 ^ 8 := by omega
  have := Nat.or_lt_two_pow hi2 lo2
  simp only [INesHeader.MapperNumber]
  omega

theorem INesHeader.Mirroring_bit0 (h : INesHeader) :
    h.Mirroring =
      if h.flags6.testBit 0 then NameTableMirroring.Vertical
      else NameTableMirroring.Horizontal := by
  simp only [INesHeader.Mirroring, Nat.testBit_zero, Nat.and_one_is_mod]
  rcases Nat.mod_two_eq_zero_or_one h.flags6 with e | e <;> simp [e]

/-- C17: `CreateMapper` returns a mapper exactly when the mapper number of the header is
0, 1, 2 or 3, and the object is then the `NRom`, `SxRom`, `UNRom`, `CNRom` built from the
cartridge; for the other numbers, 4 to 255, it returns null and `main` returns -1.  The
`Mirroring` of a created mapper is Vertical when bit 0 of `flags6` is set and Horizontal
otherwise. -/
theorem CreateMapper_by_number (rom : Rom) (chrRam : List Nat) :
    (rom.Header.MapperNumber = 0 →
      CreateMapper rom chrRam = some (Mapper.nrom (NRom.ctor rom chrRam))) ∧
    (rom.Header.MapperNumber = 1 →
      CreateMapper rom chrRam = some (Mapper.sxrom (SxRom.ctor rom))) ∧
    (rom.Header.MapperNumber = 2 →
      CreateMapper rom chrRam = some (Mapper.unrom (UNRom.ctor rom chrRam))) ∧
    (rom.Header.MapperNumber = 3 →
      CreateMapper rom chrRam = some (Mapper.cnrom (CNRom.ctor rom chrRam))) ∧
    (4 ≤ rom.Header.MapperNumber →
      rom.Header.MapperNumber ≤ 255 ∧ CreateMapper rom chrRam = none ∧
      main_mapper_check (CreateMapper rom chrRam) = some (-1)) ∧
    ((CreateMapper rom chrRam).isSome = true ↔ rom.Header.MapperNumber ≤ 3) ∧
    (∀ m, CreateMapper rom chrRam = some m →
      main_mapper_check (CreateMapper rom chrRam) = none ∧
      m.Mirroring =
        if rom.Header.flags6.testBit 0 then NameTableMirroring.Vertical
        else NameTableMirroring.Horizontal) := by
  have hle := INesHeader.MapperNumber_le rom.Header
  have hmir := INesHeader.Mirroring_bit0 rom.Header
  have big : ∀ n, 4 ≤ n → (match n with
      | 0 => some (Mapper.nrom (NRom.ctor rom chrRam))
      | 1 => some (Mapper.sxrom (SxRom.ctor rom))
      | 2 => some (Mapper.unrom (UNRom.ctor rom chrRam))
      | 3 => some (Mapper.cnrom (CNRom.ctor rom chrRam))
      | _ => none) = none := by
    intro n hn
    match n, hn with
    | n + 4, _ => rfl
  refine ⟨?_, ?_, ?_, ?_, ?_, ?_, ?_⟩
  · intro e
    simp only [CreateMapper, e]
  · intro e
    simp only [CreateMapper, e]
  · intro e
    simp only [CreateMapper, e]
  · intro e
    simp only [CreateMapper, e]
  · intro e
    have n : CreateMapper rom chrRam = none := big _ e
    refine ⟨hle, n, ?_⟩
    rw [n]
    rfl
  · constructor
    · intro hs
      by_contra hc
      have n : CreateMapper rom chrRam = none := big _ (by omega)
      rw [n] at hs
      cases hs
    · intro hl
      have : rom.Header.MapperNumber = 0 ∨ rom.Header.MapperNumber = 1 ∨
          rom.Header.MapperNumber = 2 ∨ rom.Header.MapperNumber = 3 := by omega
      rcases this with e | e | e | e <;> simp only [CreateMapper, e] <;> rfl
  · intro m hm
    refine ⟨?_, ?_⟩
    · rw [hm]
      rfl
    · by_cases hl : rom.Header.MapperNumber ≤ 3
      · have : rom.Header.MapperNumber = 0 ∨ rom.Header.MapperNumber = 1 ∨
            rom.Header.MapperNumber = 2 ∨ rom.Header.MapperNumber = 3 := by omega
        rcases this with e | e | e | e <;> simp only [CreateMapper, e] at hm <;>
          cases hm <;> exact hmir
      · have n : CreateMapper rom chrRam = none := big _ (by omega)
        rw [n] at hm
        cases hm

theorem CreateMapper_by_number_witness :
    CreateMapper { Header := { PrgRomSize := 1, ChrRomSize := 1, flags6 := 0x31, flags7 := 0,
                               PrgRamSize := 0 },
                   PrgRom := [], PrgRam := [], ChrRom := [] } [] =
      some (Mapper.cnrom (CNRom.ctor
        { Header := { PrgRomSize := 1, ChrRomSize := 1, flags6 := 0x31, flags7 := 0,
                      PrgRamSize := 0 },
          PrgRom := [], PrgRam := [], ChrRom := [] } [])) ∧
    CreateMapper { Header := { PrgRomSize := 1, ChrRomSize := 1, flags6 := 0x40, flags7 := 0,
                               PrgRamSize := 0 },
                   PrgRom := [], PrgRam := [], ChrRom := [] } [] = none :=
  ⟨(CreateMapper_by_number _ _).2.2.2.1 (by decide),
   ((CreateMapper_by_number _ _).2.2.2.2.1 (by decide)).2.1⟩

/-! ## The status register -/

theorem Flag.toNat_bit5 (f : Flag) : f.toNat.testBit 5 = false := by
  cases f <;> decide

theorem CpuRegs.SetFlag_P_testBit (r : CpuRegs) (f : Flag) (b : Bool) (i : Nat) (hi : i < 8) :
    (r.SetFlag f b).P.testBit i = if f.toNat.testBit i then b else r.P.testBit i := by
  have ff : (0xFF : Nat).testBit i = true := by
    interval_cases i <;> decide
  cases b
  · simp only [CpuRegs.SetFlag, Bool.false_eq_true, if_false, Nat.testBit_and, Nat.testBit_xor, ff]
    cases f.toNat.testBit i <;> simp
  · simp only [CpuRegs.SetFlag, if_true, Nat.testBit_or]
    cases f.toNat.testBit i <;> simp

theorem CpuRegs.SetFlag_others (r : CpuRegs) (f : Flag) (b : Bool) :
    (r.SetFlag f b).A = r.A ∧ (r.SetFlag f b).X = r.X ∧ (r.SetFlag f b).Y = r.Y ∧
    (r.SetFlag f b).S = r.S ∧ (r.SetFlag f b).PC = r.PC := by
  cases b <;> simp [CpuRegs.SetFlag]

theorem CpuRegs.SetFlag_bit5 (r : CpuRegs) (f : Flag) (b : Bool) :
    (r.SetFlag f b).P.testBit 5 = r.P.testBit 5 := by
  rw [CpuRegs.SetFlag_P_testBit r f b 5 (by decide), Flag.toNat_bit5]
  rfl

theorem CpuRegs.SetZN_bit5 (r : CpuRegs) (v : Nat) :
    (r.SetZN v).2.P.testBit 5 = r.P.testBit 5 := by
  simp only [CpuRegs.SetZN, CpuRegs.SetFlag_bit5]

theorem Cpu.loadb_regs {M : Type} (bus : IMem M) (c c1 : Cpu M) (addr m : Nat)
    (h : Cpu.loadb bus c addr = some (m, c1)) : c1._regs = c._regs ∧ m < 256 := by
  simp only [Cpu.loadb] at h
  cases e : bus.loadb c._mem addr with
  | none =>
    rw [e] at h
    cases h
  | some r =>
    rw [e] at h
    simp only [Option.map_some', Option.some.injEq, Prod.mk.injEq] at h
    obtain ⟨h1, h2⟩ := h
    subst h2
    subst h1
    exact ⟨rfl, Nat.mod_lt _ (by decide)⟩

theorem Cpu.LoadBBumpPC_regs {M : Type} (bus : IMem M) (c c1 : Cpu M) (m : Nat)
    (h : Cpu.LoadBBumpPC bus c = some (m, c1)) :
    c1._regs = { c._regs with PC := (c._regs.PC + 1) % 65536 } ∧ m < 256 :=
  Cpu.loadb_regs bus _ c1 _ m h

theorem Cpu.Load_regs {M : Type} (bus : IMem M) (am : IAddressingMode) (c c1 : Cpu M) (m : Nat)
    (h : Cpu.Load bus am c = some (m, c1)) :
    c1._regs.A = c._regs.A ∧ c1._regs.X = c._regs.X ∧ c1._regs.Y = c._regs.Y ∧
    c1._regs.P = c._regs.P ∧ c1._regs.S = c._regs.S := by
  cases am with
  | AccumulatorAddressingMode =>
    simp only [Cpu.Load, Option.some.injEq, Prod.mk.injEq] at h
    obtain ⟨-, h2⟩ := h
    subst h2
    exact ⟨rfl, rfl, rfl, rfl, rfl⟩
  | ImmediateAddressingMode =>
    have := (Cpu.LoadBBumpPC_regs bus c c1 m h).1
    rw [this]
    exact ⟨rfl, rfl, rfl, rfl, rfl⟩
  | MemoryAddressingMode addr =>
    have := (Cpu.loadb_regs bus c c1 addr m h).1
    rw [this]
    exact ⟨rfl, rfl, rfl, rfl, rfl⟩

theorem Cpu.Store_P {M : Type} (bus : IMem M) (am : IAddressingMode) (c c1 : Cpu M) (v : Nat)
    (h : Cpu.Store bus am c v = some c1) : c1._regs.P = c._regs.P := by
  cases am with
  | AccumulatorAddressingMode =>
    simp only [Cpu.Store, Option.some.injEq] at h
    subst h
    rfl
  | ImmediateAddressingMode =>
    simp only [Cpu.Store, Option.some.injEq] at h
    subst h
    rfl
  | MemoryAddressingMode addr =>
    simp only [Cpu.Store, Cpu.storeb] at h
    cases e : bus.storeb c._mem addr v with
    | none =>
      rw [e] at h
      cases h
    | some r =>
      rw [e] at h
      simp only [Option.map_some', Option.some.injEq] at h
      subst h
      rfl

theorem Cpu.branch_base_P {M : Type} (bus : IMem M) (cond : Bool) (c c1 : Cpu M)
    (h : Cpu.branch_base bus cond c = some c1) : c1._regs.P = c._regs.P := by
  simp only [Cpu.branch_base] at h
  cases e : Cpu.LoadBBumpPC bus c with
  | none =>
    rw [e] at h
    cases h
  | some r =>
    rw [e] at h
    simp only [Option.map_some', Option.some.injEq] at h
    obtain ⟨m, c0⟩ := r
    have hr := (Cpu.LoadBBumpPC_regs bus c c0 m e).1
    subst h
    cases cond
    · simp only [Bool.false_eq_true, if_false]
      rw [hr]
    · simp only [if_true]
      rw [hr]

theorem Cpu.apply_bit5 {M : Type} (bus : IMem M) (op : CpuOp) (c c1 : Cpu M)
    (h : Cpu.apply bus op c = some c1) : c1._regs.P.testBit 5 = c._regs.P.testBit 5 := by
  cases op with
  | lda am =>
    simp only [Cpu.apply, Cpu.lda] at h
    cases e : Cpu.Load bus am c with
    | none =>
      rw [e] at h
      cases h
    | some r =>
      rw [e] at h
      simp only [Option.map_some', Option.some.injEq] at h
      subst h
      show (r.2._regs.SetZN r.1).2.P.testBit 5 = c._regs.P.testBit 5
      rw [CpuRegs.SetZN_bit5, (Cpu.Load_regs bus am c r.2 r.1 e).2.2.2.1]
  | ldx am =>
    simp only [Cpu.apply, Cpu.ldx] at h
    cases e : Cpu.Load bus am c with
    | none =>
      rw [e] at h
      cases h
    | some r =>
      rw [e] at h
      simp only [Option.map_some', Option.some.injEq] at h
      subst h
      show (r.2._regs.SetZN r.1).2.P.testBit 5 = c._regs.P.testBit 5
      rw [CpuRegs.SetZN_bit5, (Cpu.Load_regs bus am c r.2 r.1 e).2.2.2.1]
  | ldy am =>
    simp only [Cpu.apply, Cpu.ldy] at h
    cases e : Cpu.Load bus am c with
    | none =>
      rw [e] at h
      cases h
    | some r =>
      rw [e] at h
      simp only [Option.map_some', Option.some.injEq] at h
      subst h
      show (r.2._regs.SetZN r.1).2.P.testBit 5 = c._regs.P.testBit 5
      rw [CpuRegs.SetZN_bit5, (Cpu.Load_regs bus am c r.2 r.1 e).2.2.2.1]
  | sta am => exact congrArg (fun p => Nat.testBit p 5) (Cpu.Store_P bus am c c1 _ h)
  | stx am => exact congrArg (fun p => Nat.testBit p 5) (Cpu.Store_P bus am c c1 _ h)
  | sty am => exact congrArg (fun p => Nat.testBit p 5) (Cpu.Store_P bus am c c1 _ h)
  | tax =>
    simp only [Cpu.apply, Option.some.injEq] at h
    subst h
    exact CpuRegs.SetZN_bit5 _ _
  | tay =>
    simp only [Cpu.apply, Option.some.injEq] at h
    subst h
    exact CpuRegs.SetZN_bit5 _ _
  | txa =>
    simp only [Cpu.apply, Option.some.injEq] at h
    subst h
    exact CpuRegs.SetZN_bit5 _ _
  | tya =>
    simp only [Cpu.apply, Option.some.injEq] at h
    subst h
    exact CpuRegs.SetZN_bit5 _ _
  | tsx =>
    simp only [Cpu.apply, Option.some.injEq] at h
    subst h
    exact CpuRegs.SetZN_bit5 _ _
  | txs =>
    simp only [Cpu.apply, Option.some.injEq] at h
    subst h
    rfl
  | clc =>
    simp only [Cpu.apply, Option.some.injEq] at h
    subst h
    exact CpuRegs.SetFlag_bit5 _ _ _
  | sec =>
    simp only [Cpu.apply, Option.some.injEq] at h
    subst h
    exact CpuRegs.SetFlag_bit5 _ _ _
  | cli =>
    simp only [Cpu.apply, Option.some.injEq] at h
    subst h
    exact CpuRegs.SetFlag_bit5 _ _ _
  | sei =>
    simp only [Cpu.apply, Option.some.injEq] at h
    subst h
    exact CpuRegs.SetFlag_bit5 _ _ _
  | clv =>
    simp only [Cpu.apply, Option.some.injEq] at h
    subst h
    exact CpuRegs.SetFlag_bit5 _ _ _
  | cld =>
    simp only [Cpu.apply, Option.some.injEq] at h
    subst h
    exact CpuRegs.SetFlag_bit5 _ _ _
  | sed =>
    simp only [Cpu.apply, Option.some.injEq] at h
    subst h
    exact CpuRegs.SetFlag_bit5 _ _ _
  | bpl => exact congrArg (fun p => Nat.testBit p 5) (Cpu.branch_base_P bus _ c c1 h)
  | bmi => exact congrArg (fun p => Nat.testBit p 5) (Cpu.branch_base_P bus _ c c1 h)
  | bvc => exact congrArg (fun p => Nat.testBit p 5) (Cpu.branch_base_P bus _ c c1 h)
  | bvs => exact congrArg (fun p => Nat.testBit p 5) (Cpu.branch_base_P bus _ c c1 h)
  | bcc => exact congrArg (fun p => Nat.testBit p 5) (Cpu.branch_base_P bus _ c c1 h)
  | bcs => exact congrArg (fun p => Nat.testBit p 5) (Cpu.branch_base_P bus _ c c1 h)
  | bne => exact congrArg (fun p => Nat.testBit p 5) (Cpu.branch_base_P bus _ c c1 h)
  | beq => exact congrArg (fun p => Nat.testBit p 5) (Cpu.branch_base_P bus _ c c1 h)
  | SetFlag flag turnOn =>
    simp only [Cpu.apply, Option.some.injEq] at h
    subst h
    exact CpuRegs.SetFlag_bit5 _ _ _
  | SetZN val =>
    simp only [Cpu.apply, Option.some.injEq] at h
    subst h
    exact CpuRegs.SetZN_bit5 _ _

theorem Cpu.applyAll_bit5 {M : Type} (bus : IMem M) (ops : List CpuOp) (c c1 : Cpu M)
    (h : Cpu.applyAll bus ops c = some c1) : c1._regs.P.testBit 5 = c._regs.P.testBit 5 := by
  induction ops generalizing c with
  | nil =>
    simp only [Cpu.applyAll, Option.some.injEq] at h
    subst h
    rfl
  | cons op ops ih =>
    simp only [Cpu.applyAll] at h
    cases e : Cpu.apply bus op c with
    | none =>
      rw [e] at h
      cases h
    | some t =>
      rw [e] at h
      simp only [Option.some_bind] at h
      rw [ih t h, Cpu.apply_bit5 bus op c t e]

theorem Cpu.apply_ramBus_defined (op : CpuOp) (c : Cpu Ram) :
    (Cpu.apply ramBus op c).isSome = true := by
  cases op with
  | lda am => cases am <;> rfl
  | ldx am => cases am <;> rfl
  | ldy am => cases am <;> rfl
  | sta am => cases am <;> rfl
  | stx am => cases am <;> rfl
  | sty am => cases am <;> rfl
  | _ => rfl

theorem Cpu.applyAll_ramBus_defined (ops : List CpuOp) (c : Cpu Ram) :
    (Cpu.applyAll ramBus ops c).isSome = true := by
  induction ops generalizing c with
  | nil => rfl
  | cons op ops ih =>
    simp only [Cpu.applyAll]
    cases e : Cpu.apply ramBus op c with
    | none =>
      have := Cpu.apply_ramBus_defined op c
      rw [e] at this
      cases this
    | some t =>
      simp only [Option.some_bind]
      exact ih t

/-- C18: bit 5 of `P` is 1 in every register state reachable from the constructed
`CpuRegs` (`P = 0x28`, `A = X = Y = 0`, `S = 0xFD`) by any sequence of the operations of
`cpu.h`: `SetFlag` with any flag and value, `SetZN`, the loads, the transfers, the flag
instructions, the stores and the eight branches, over any bus and any addressing-mode
accessors. -/
theorem Cpu.bit5_always_set {M : Type} (bus : IMem M) (mem : M) (ops : List CpuOp) (c : Cpu M)
    (h : Cpu.applyAll bus ops { _regs := CpuRegs.ctor, _mem := mem } = some c) :
    CpuRegs.ctor.P = 0x28 ∧ CpuRegs.ctor.A = 0 ∧ CpuRegs.ctor.X = 0 ∧ CpuRegs.ctor.Y = 0 ∧
    CpuRegs.ctor.S = 0xFD ∧ c._regs.P.testBit 5 = true := by
  refine ⟨by decide, rfl, rfl, rfl, rfl, ?_⟩
  rw [Cpu.applyAll_bit5 bus ops _ c h]
  show CpuRegs.ctor.P.testBit 5 = true
  decide

theorem Cpu.bit5_always_set_witness :
    ∃ c : Cpu Ram,
      Cpu.applyAll ramBus
        [CpuOp.cld, CpuOp.lda IAddressingMode.ImmediateAddressingMode,
         CpuOp.SetFlag Flag.Break false, CpuOp.tax,
         CpuOp.sta (IAddressingMode.MemoryAddressingMode 0x10), CpuOp.beq, CpuOp.sec]
        { _regs := CpuRegs.ctor, _mem := Ram.ctor } = some c ∧
      c._regs.P = 0x23 ∧ c._regs.P.testBit 5 = true := by
  refine ⟨_, rfl, by decide, ?_⟩
  exact (Cpu.bit5_always_set ramBus Ram.ctor
    [CpuOp.cld, CpuOp.lda IAddressingMode.ImmediateAddressingMode,
     CpuOp.SetFlag Flag.Break false, CpuOp.tax,
     CpuOp.sta (IAddressingMode.MemoryAddressingMode 0x10), CpuOp.beq, CpuOp.sec] _ rfl).2.2.2.2.2

theorem and_two_pow_ne_zero (p k : Nat) : decide (p &&& 2 ^ k ≠ 0) = p.testBit k := by
  rw [Nat.and_two_pow]
  cases p.testBit k <;> simp

theorem CpuRegs.GetFlag_testBit (r : CpuRegs) :
    r.GetFlag Flag.Carry = r.P.testBit 0 ∧ r.GetFlag Flag.Zero = r.P.testBit 1 ∧
    r.GetFlag Flag.IRQ = r.P.testBit 2 ∧ r.GetFlag Flag.Decimal = r.P.testBit 3 ∧
    r.GetFlag Flag.Break = r.P.testBit 4 ∧ r.GetFlag Flag.Overflow = r.P.testBit 6 ∧
    r.GetFlag Flag.Negative = r.P.testBit 7 := by
  simp only [CpuRegs.GetFlag, Flag.toNat, Nat.one_shiftLeft, and_two_pow_ne_zero, and_self]

theorem CpuRegs.SetZN_spec (r : CpuRegs) (m : Nat) :
    (r.SetZN m).1 = m ∧ (r.SetZN m).2.A = r.A ∧ (r.SetZN m).2.X = r.X ∧
    (r.SetZN m).2.Y = r.Y ∧ (r.SetZN m).2.S = r.S ∧ (r.SetZN m).2.PC = r.PC ∧
    (r.SetZN m).2.P.testBit 1 = decide (m = 0) ∧
    (r.SetZN m).2.P.testBit 7 = m.testBit 7 ∧
    ∀ i, i < 8 → i ≠ 1 → i ≠ 7 → (r.SetZN m).2.P.testBit i = r.P.testBit i := by
  have hn : decide (m &&& 0x80 ≠ 0) = m.testBit 7 := and_two_pow_ne_zero m 7
  have key : ∀ i, i < 8 → (r.SetZN m).2.P.testBit i =
      if i = 7 then m.testBit 7 else if i = 1 then decide (m = 0) else r.P.testBit i := by
    intro i hi
    simp only [CpuRegs.SetZN]
    rw [CpuRegs.SetFlag_P_testBit _ _ _ i hi, CpuRegs.SetFlag_P_testBit _ _ _ i hi, hn]
    simp only [Flag.toNat, Nat.one_shiftLeft, Nat.testBit_two_pow, decide_eq_true_eq]
    by_cases e7 : i = 7
    · subst e7
      simp
    · by_cases e1 : i = 1
      · subst e1
        simp
      · have a : ¬ 7 = i := fun x => e7 x.symm
        have b : ¬ 1 = i := fun x => e1 x.symm
        simp only [a, b, e7, e1, if_false]
  refine ⟨rfl, ?_, ?_, ?_, ?_, ?_, ?_, ?_, ?_⟩
  · simp only [CpuRegs.SetZN, (CpuRegs.SetFlag_others _ _ _).1]
  · simp only [CpuRegs.SetZN, (CpuRegs.SetFlag_others _ _ _).2.1]
  · simp only [CpuRegs.SetZN, (CpuRegs.SetFlag_others _ _ _).2.2.1]
  · simp only [CpuRegs.SetZN, (CpuRegs.SetFlag_others _ _ _).2.2.2.1]
  · simp only [CpuRegs.SetZN, (CpuRegs.SetFlag_others _ _ _).2.2.2.2]
  · rw [key 1 (by decide)]
    simp
  · rw [key 7 (by decide)]
    simp
  · intro i h8 i1 i7
    rw [key i h8]
    simp only [i1, i7, if_false]

/-- C19: for every CPU state and every addressing-mode accessor whose `Load` returns the
byte `m`, `lda` (resp. `ldx`, `ldy`) returns, sets `A` (resp. `X`, `Y`) to `m`, sets Zero
to `m = 0` and Negative to bit 7 of `m`, and leaves the other bits of `P` (0, 2, 3, 4, 5,
6), the other two of `A`, `X`, `Y`, and `S` unchanged; the bus and `PC` are those the
`Load` left. -/
theorem Cpu.loads_set_register_and_ZN {M : Type} (bus : IMem M) (am : IAddressingMode)
    (c c1 : Cpu M) (m : Nat) (h : Cpu.Load bus am c = some (m, c1)) :
    (∃ c2, Cpu.lda bus am c = some c2 ∧ c2._mem = c1._mem ∧ c2._regs.PC = c1._regs.PC ∧
      c2._regs.A = m ∧ c2._regs.X = c._regs.X ∧ c2._regs.Y = c._regs.Y ∧
      c2._regs.S = c._regs.S ∧
      c2._regs.GetFlag Flag.Zero = decide (m = 0) ∧
      c2._regs.GetFlag Flag.Negative = m.testBit 7 ∧
      ∀ i, i < 8 → i ≠ 1 → i ≠ 7 → c2._regs.P.testBit i = c._regs.P.testBit i) ∧
    (∃ c2, Cpu.ldx bus am c = some c2 ∧ c2._mem = c1._mem ∧ c2._regs.PC = c1._regs.PC ∧
      c2._regs.X = m ∧ c2._regs.A = c._regs.A ∧ c2._regs.Y = c._regs.Y ∧
      c2._regs.S = c._regs.S ∧
      c2._regs.GetFlag Flag.Zero = decide (m = 0) ∧
      c2._regs.GetFlag Flag.Negative = m.testBit 7 ∧
      ∀ i, i < 8 → i ≠ 1 → i ≠ 7 → c2._regs.P.testBit i = c._regs.P.testBit i) ∧
    (∃ c2, Cpu.ldy bus am c = some c2 ∧ c2._mem = c1._mem ∧ c2._regs.PC = c1._regs.PC ∧
      c2._regs.Y = m ∧ c2._regs.A = c._regs.A ∧ c2._regs.X = c._regs.X ∧
      c2._regs.S = c._regs.S ∧
      c2._regs.GetFlag Flag.Zero = decide (m = 0) ∧
      c2._regs.GetFlag Flag.Negative = m.testBit 7 ∧
      ∀ i, i < 8 → i ≠ 1 → i ≠ 7 → c2._regs.P.testBit i = c._regs.P.testBit i) := by
  obtain ⟨hA, hX, hY, hP, hS⟩ := Cpu.Load_regs bus am c c1 m h
  have hz := CpuRegs.SetZN_spec c1._regs m
  refine ⟨?_, ?_, ?_⟩
  · refine ⟨{ c1 with _regs := { (c1._regs.SetZN m).2 with A := (c1._regs.SetZN m).1 } }, ?_,
      rfl, hz.2.2.2.2.2.1, rfl, ?_, ?_, ?_, ?_, ?_, ?_⟩
    · simp only [Cpu.lda, h, Option.map_some']
    · show (c1._regs.SetZN m).2.X = c._regs.X
      rw [hz.2.2.1, hX]
    · show (c1._regs.SetZN m).2.Y = c._regs.Y
      rw [hz.2.2.2.1, hY]
    · show (c1._regs.SetZN m).2.S = c._regs.S
      rw [hz.2.2.2.2.1, hS]
    · show (c1._regs.SetZN m).2.GetFlag Flag.Zero = decide (m = 0)
      rw [(CpuRegs.GetFlag_testBit _).2.1, hz.2.2.2.2.2.2.1]
    · show (c1._regs.SetZN m).2.GetFlag Flag.Negative = m.testBit 7
      rw [(CpuRegs.GetFlag_testBit _).2.2.2.2.2.2, hz.2.2.2.2.2.2.2.1]
    · intro i h8 i1 i7
      show (c1._regs.SetZN m).2.P.testBit i = c._regs.P.testBit i
      rw [hz.2.2.2.2.2.2.2.2 i h8 i1 i7, hP]
  · refine ⟨{ c1 with _regs := { (c1._regs.SetZN m).2 with X := (c1._regs.SetZN m).1 } }, ?_,
      rfl, hz.2.2.2.2.2.1, rfl, ?_, ?_, ?_, ?_, ?_, ?_⟩
    · simp only [Cpu.ldx, h, Option.map_some']
    · show (c1._regs.SetZN m).2.A = c._regs.A
      rw [hz.2.1, hA]
    · show (c1._regs.SetZN m).2.Y = c._regs.Y
      rw [hz.2.2.2.1, hY]
    · show (c1._regs.SetZN m).2.S = c._regs.S
      rw [hz.2.2.2.2.1, hS]
    · show (c1._regs.SetZN m).2.GetFlag Flag.Zero = decide (m = 0)
      rw [(CpuRegs.GetFlag_testBit _).2.1, hz.2.2.2.2.2.2.1]
    · show (c1._regs.SetZN m).2.GetFlag Flag.Negative = m.testBit 7
      rw [(CpuRegs.GetFlag_testBit _).2.2.2.2.2.2, hz.2.2.2.2.2.2.2.1]
    · intro i h8 i1 i7
      show (c1._regs.SetZN m).2.P.testBit i = c._regs.P.testBit i
      rw [hz.2.2.2.2.2.2.2.2 i h8 i1 i7, hP]
  · refine ⟨{ c1 with _regs := { (c1._regs.SetZN m).2 with Y := (c1._regs.SetZN m).1 } }, ?_,
      rfl, hz.2.2.2.2.2.1, rfl, ?_, ?_, ?_, ?_, ?_, ?_⟩
    · simp only [Cpu.ldy, h, Option.map_some']
    · show (c1._regs.SetZN m).2.A = c._regs.A
      rw [hz.2.1, hA]
    · show (c1._regs.SetZN m).2.X = c._regs.X
      rw [hz.2.2.1, hX]
    · show (c1._regs.SetZN m).2.S = c._regs.S
      rw [hz.2.2.2.2.1, hS]
    · show (c1._regs.SetZN m).2.GetFlag Flag.Zero = decide (m = 0)
      rw [(CpuRegs.GetFlag_testBit _).2.1, hz.2.2.2.2.2.2.1]
    · show (c1._regs.SetZN m).2.GetFlag Flag.Negative = m.testBit 7
      rw [(CpuRegs.GetFlag_testBit _).2.2.2.2.2.2, hz.2.2.2.2.2.2.2.1]
    · intro i h8 i1 i7
      show (c1._regs.SetZN m).2.P.testBit i = c._regs.P.testBit i
      rw [hz.2.2.2.2.2.2.2.2 i h8 i1 i7, hP]

theorem Cpu.loads_set_register_and_ZN_witness :
    ∃ c2 : Cpu Ram,
      Cpu.lda ramBus IAddressingMode.ImmediateAddressingMode
        { _regs := { A := 0x55, X := 1, Y := 2, P := 0xA9, S := 0xFD, PC := 0x8001 },
          _mem := Ram.ctor } = some c2 ∧
      c2._regs.A = 0 ∧ c2._regs.GetFlag Flag.Zero = true ∧
      c2._regs.GetFlag Flag.Negative = false ∧ c2._regs.PC = 0x8002 := by
  obtain ⟨c2, h1, -, hpc, hA, -, -, -, hz, hn, -⟩ :=
    (Cpu.loads_set_register_and_ZN ramBus IAddressingMode.ImmediateAddressingMode
      { _regs := { A := 0x55, X := 1, Y := 2, P := 0xA9, S := 0xFD, PC := 0x8001 },
        _mem := Ram.ctor }
      { _regs := { A := 0x55, X := 1, Y := 2, P := 0xA9, S := 0xFD, PC := 0x8002 },
        _mem := Ram.ctor } 0 rfl).1
  exact ⟨c2, h1, hA, hz, hn, hpc⟩

/-! ## Branches -/

theorem Cpu.branch_base_spec {M : Type} (bus : IMem M) (cond : Bool) (c : Cpu M) (d : Nat)
    (m1 : M) (hload : bus.loadb c._mem c._regs.PC = some (d, m1)) (hd : d < 256) :
    Cpu.branch_base bus cond c =
      some { _regs := { c._regs with PC := spec_branch_pc c._regs.PC d cond }, _mem := m1 } := by
  have hmod : d % 256 = d := Nat.mod_eq_of_lt hd
  simp only [Cpu.branch_base, Cpu.LoadBBumpPC, Cpu.loadb, hload, Option.map_some', hmod]
  cases cond
  · simp only [Bool.false_eq_true, if_false, spec_branch_pc]
  · simp only [if_true, spec_branch_pc, spec_branch_disp, Cpu.toI8, hmod]
    have e : ((((c._regs.PC + 1) % 65536 : Nat) : Int) +
          (if d < 128 then (d : Int) else (d : Int) - 256)) % 65536 =
        ((c._regs.PC : Int) + 1 + (if 0x80 ≤ d then (d : Int) - 256 else (d : Int))) % 65536 := by
      split <;> split <;> omega
    rw [e]

/-- C20: with `PC` at the displacement byte `d` (the bus returns `d < 256` there), each
branch returns, and the state it leaves differs from the one before only in `PC` (and in
the bus as the read left it).  The branch is taken exactly when `bpl`: N = 0, `bmi`: N = 1,
`bvc`: V = 0, `bvs`: V = 1, `bcc`: C = 0, `bcs`: C = 1, `bne`: Z = 0, `beq`: Z = 1, where
N, V, C, Z are bits 7, 6, 0, 1 of `P`; the new `PC` is `(PC + 1 + s) mod 65536` if taken,
with `s` the byte `d` read as an 8-bit two-complement number, and `(PC + 1) mod 65536` if
not. -/
theorem Cpu.branches_follow_flags {M : Type} (bus : IMem M) (c : Cpu M) (d : Nat) (m1 : M)
    (hload : bus.loadb c._mem c._regs.PC = some (d, m1)) (hd : d < 256) :
    Cpu.bpl bus c =
      some { _regs := { c._regs with PC := spec_branch_pc c._regs.PC d (!c._regs.P.testBit 7) },
             _mem := m1 } ∧
    Cpu.bmi bus c =
      some { _regs := { c._regs with PC := spec_branch_pc c._regs.PC d (c._regs.P.testBit 7) },
             _mem := m1 } ∧
    Cpu.bvc bus c =
      some { _regs := { c._regs with PC := spec_branch_pc c._regs.PC d (!c._regs.P.testBit 6) },
             _mem := m1 } ∧
    Cpu.bvs bus c =
      some { _regs := { c._regs with PC := spec_branch_pc c._regs.PC d (c._regs.P.testBit 6) },
             _mem := m1 } ∧
    Cpu.bcc bus c =
      some { _regs := { c._regs with PC := spec_branch_pc c._regs.PC d (!c._regs.P.testBit 0) },
             _mem := m1 } ∧
    Cpu.bcs bus c =
      some { _regs := { c._regs with PC := spec_branch_pc c._regs.PC d (c._regs.P.testBit 0) },
             _mem := m1 } ∧
    Cpu.bne bus c =
      some { _regs := { c._regs with PC := spec_branch_pc c._regs.PC d (!c._regs.P.testBit 1) },
             _mem := m1 } ∧
    Cpu.beq bus c =
      some { _regs := { c._regs with PC := spec_branch_pc c._regs.PC d (c._regs.P.testBit 1) },
             _mem := m1 } := by
  refine ⟨?_, ?_, ?_, ?_, ?_, ?_, ?_, ?_⟩
  · rw [← (CpuRegs.GetFlag_testBit c._regs).2.2.2.2.2.2]
    exact Cpu.branch_base_spec bus _ c d m1 hload hd
  · rw [← (CpuRegs.GetFlag_testBit c._regs).2.2.2.2.2.2]
    exact Cpu.branch_base_spec bus _ c d m1 hload hd
  · rw [← (CpuRegs.GetFlag_testBit c._regs).2.2.2.2.2.1]
    exact Cpu.branch_base_spec bus _ c d m1 hload hd
  · rw [← (CpuRegs.GetFlag_testBit c._regs).2.2.2.2.2.1]
    exact Cpu.branch_base_spec bus _ c d m1 hload hd
  · rw [← (CpuRegs.GetFlag_testBit c._regs).1]
    exact Cpu.branch_base_spec bus _ c d m1 hload hd
  · rw [← (CpuRegs.GetFlag_testBit c._regs).1]
    exact Cpu.branch_base_spec bus _ c d m1 hload hd
  · rw [← (CpuRegs.GetFlag_testBit c._regs).2.1]
    exact Cpu.branch_base_spec bus _ c d m1 hload hd
  · rw [← (CpuRegs.GetFlag_testBit c._regs).2.1]
    exact Cpu.branch_base_spec bus _ c d m1 hload hd

theorem Cpu.branches_follow_flags_witness :
    (Cpu.beq ramBus
        { _regs := { A := 0, X := 0, Y := 0, P := 0x2A, S := 0xFD, PC := 0x80FF },
          _mem := Ram.storeb Ram.ctor 0x80FF 0x02 }).map (fun t => t._regs) =
      some { A := 0, X := 0, Y := 0, P := 0x2A, S := 0xFD, PC := 0x8102 } ∧
    (Cpu.bne ramBus
        { _regs := { A := 0, X := 0, Y := 0, P := 0x28, S := 0xFD, PC := 0x8010 },
          _mem := Ram.storeb Ram.ctor 0x8010 0xFE }).map (fun t => t._regs) =
      some { A := 0, X := 0, Y := 0, P := 0x28, S := 0xFD, PC := 0x800F } := by
  constructor
  · rw [(Cpu.branches_follow_flags ramBus
      { _regs := { A := 0, X := 0, Y := 0, P := 0x2A, S := 0xFD, PC := 0x80FF },
        _mem := Ram.storeb Ram.ctor 0x80FF 0x02 } 0x02 (Ram.storeb Ram.ctor 0x80FF 0x02)
      rfl (by decide)).2.2.2.2.2.2.2]
    decide
  · rw [(Cpu.branches_follow_flags ramBus
      { _regs := { A := 0, X := 0, Y := 0, P := 0x28, S := 0xFD, PC := 0x8010 },
        _mem := Ram.storeb Ram.ctor 0x8010 0xFE } 0xFE (Ram.storeb Ram.ctor 0x8010 0xFE)
      rfl (by decide)).2.2.2.2.2.2.1]
    decide

/-! ## SxRom: the states a program can reach -/

theorem SxRom.commit_regs (s : SxRom) (a acc : Nat)
    (h0 : s._chrBank0 ≤ 31) (h1 : s._chrBank1 ≤ 31) (h2 : s._prgBank ≤ 15) :
    (SxRom.commit s a acc)._writeCount = 0 ∧ (SxRom.commit s a acc)._accumulator = 0 ∧
    (SxRom.commit s a acc)._chrBank0 ≤ 31 ∧ (SxRom.commit s a acc)._chrBank1 ≤ 31 ∧
    (SxRom.commit s a acc)._prgBank ≤ 15 ∧
    (SxRom.commit s a acc)._rom = s._rom ∧ (SxRom.commit s a acc)._chrRam = s._chrRam := by
  have b5 : acc &&& 0x1f ≤ 31 := Nat.and_le_right
  have b4 : acc &&& 0xf ≤ 15 := Nat.and_le_right
  unfold SxRom.commit
  split
  · exact ⟨rfl, rfl, h0, h1, h2, rfl, rfl⟩
  · split
    · exact ⟨rfl, rfl, b5, h1, h2, rfl, rfl⟩
    · split
      · exact ⟨rfl, rfl, h0, b5, h2, rfl, rfl⟩
      · exact ⟨rfl, rfl, h0, h1, b4, rfl, rfl⟩

theorem SxRom.shift_bound (acc v wc : Nat) (h : acc < 2 ^ wc) :
    (acc ||| ((v &&& 1) <<< wc)) % 256 < 2 ^ (wc + 1) := by
  have hb : v &&& 1 ≤ 1 := Nat.and_le_right
  have hp : 0 < 2 ^ wc := Nat.two_pow_pos wc
  have hm : (v &&& 1) * 2 ^ wc ≤ 1 * 2 ^ wc := Nat.mul_le_mul_right _ hb
  have e : 2 ^ (wc + 1) = 2 ^ wc * 2 := Nat.pow_succ 2 wc
  have h1 : acc < 2 ^ (wc + 1) := by omega
  have h2 : (v &&& 1) <<< wc < 2 ^ (wc + 1) := by
    rw [Nat.shiftLeft_eq]
    omega
  have h3 := Nat.or_lt_two_pow h1 h2
  exact Nat.lt_of_le_of_lt (Nat.mod_le _ _) h3

theorem SxRom.prg_storeb_low (s t : SxRom) (a v : Nat) (ha : a < 0x8000)
    (h : SxRom.prg_storeb s a v = some t) :
    t = { s with _rom := { s._rom with PrgRam := s._rom.PrgRam.set (a &&& 0x1fff) v } } ∧
    a &&& 0x1fff < s._rom.PrgRam.length := by
  simp only [SxRom.prg_storeb, if_pos ha, vecStore] at h
  by_cases hl : a &&& 0x1fff < s._rom.PrgRam.length
  · simp only [if_pos hl, Option.map_some', Option.some.injEq] at h
    exact ⟨h.symm, hl⟩
  · simp only [if_neg hl, Option.map_none'] at h
    cases h

theorem SxRom.prg_storeb_inv (s t : SxRom) (a v : Nat)
    (h : SxRom.prg_storeb s a v = some t)
    (hw : s._writeCount ≤ 4) (hacc : s._accumulator < 2 ^ s._writeCount)
    (h0 : s._chrBank0 ≤ 31) (h1 : s._chrBank1 ≤ 31) (h2 : s._prgBank ≤ 15) :
    t._writeCount ≤ 4 ∧ t._accumulator < 2 ^ t._writeCount ∧
    t._chrBank0 ≤ 31 ∧ t._chrBank1 ≤ 31 ∧ t._prgBank ≤ 15 ∧
    t._rom.PrgRam.length = s._rom.PrgRam.length ∧
    t._rom.Header = s._rom.Header ∧ t._chrRam = s._chrRam := by
  by_cases ha : a < 0x8000
  · obtain ⟨e, -⟩ := SxRom.prg_storeb_low s t a v ha h
    subst e
    exact ⟨hw, hacc, h0, h1, h2, List.length_set _ _ _, rfl, rfl⟩
  · have ha2 : 0x8000 ≤ a := by omega
    by_cases hv : v &&& 0x80 = 0
    · by_cases h4 : s._writeCount = 4
      · rw [SxRom.prg_storeb_fifth s a v ha2 hv h4] at h
        simp only [Option.some.injEq] at h
        subst h
        obtain ⟨c1, c2, c3, c4, c5, c6, c7⟩ := SxRom.commit_regs s a
          ((s._accumulator ||| ((v &&& 1) <<< 4)) % 256) h0 h1 h2
        refine ⟨by omega, ?_, c3, c4, c5, by rw [c6], by rw [c6], c7⟩
        rw [c1, c2]
        decide
      · have hlt : s._writeCount < 4 := by omega
        rw [SxRom.prg_storeb_shift s a v ha2 hv hlt] at h
        simp only [Option.some.injEq] at h
        subst h
        refine ⟨?_, ?_, h0, h1, h2, rfl, rfl, rfl⟩
        · show s._writeCount + 1 ≤ 4
          omega
        · exact SxRom.shift_bound _ _ _ hacc
    · rw [SxRom.prg_storeb_reset s a v ha2 hv] at h
      simp only [Option.some.injEq] at h
      subst h
      exact ⟨Nat.zero_le _, (by decide : (0 : Nat) < 2 ^ 0), h0, h1, h2, rfl, rfl, rfl⟩

theorem SxRom.prg_storeb_defined (s : SxRom) (a v : Nat)
    (hlen : s._rom.PrgRam.length = 0x2000) (hw : s._writeCount ≤ 4) :
    ∃ t, SxRom.prg_storeb s a v = some t := by
  by_cases ha : a < 0x8000
  · have hl : a &&& 0x1fff < s._rom.PrgRam.length := by
      have : a &&& 0x1fff < 2 ^ 13 := Nat.and_lt_two_pow _ (by decide)
      omega
    refine ⟨{ s with _rom := { s._rom with PrgRam := s._rom.PrgRam.set (a &&& 0x1fff) v } }, ?_⟩
    simp only [SxRom.prg_storeb, if_pos ha, vecStore, if_pos hl, Option.map_some']
  · have ha2 : 0x8000 ≤ a := by omega
    by_cases hv : v &&& 0x80 = 0
    · by_cases h4 : s._writeCount = 4
      · exact ⟨_, SxRom.prg_storeb_fifth s a v ha2 hv h4⟩
      · exact ⟨_, SxRom.prg_storeb_shift s a v ha2 hv (by omega)⟩
    · exact ⟨_, SxRom.prg_storeb_reset s a v ha2 hv⟩

theorem SxRom.prg_storeb_all_inv (ws : List (Nat × Nat)) (s t : SxRom)
    (h : SxRom.prg_storeb_all s ws = some t)
    (hw : s._writeCount ≤ 4) (hacc : s._accumulator < 2 ^ s._writeCount)
    (h0 : s._chrBank0 ≤ 31) (h1 : s._chrBank1 ≤ 31) (h2 : s._prgBank ≤ 15) :
    t._writeCount ≤ 4 ∧ t._accumulator < 2 ^ t._writeCount ∧
    t._chrBank0 ≤ 31 ∧ t._chrBank1 ≤ 31 ∧ t._prgBank ≤ 15 ∧
    t._rom.PrgRam.length = s._rom.PrgRam.length ∧
    t._rom.Header = s._rom.Header ∧ t._chrRam = s._chrRam := by
  induction ws generalizing s with
  | nil =>
    simp only [SxRom.prg_storeb_all, Option.some.injEq] at h
    subst h
    exact ⟨hw, hacc, h0, h1, h2, rfl, rfl, rfl⟩
  | cons w ws ih =>
    simp only [SxRom.prg_storeb_all] at h
    cases e : SxRom.prg_storeb s w.1 w.2 with
    | none =>
      rw [e] at h
      cases h
    | some u =>
      rw [e] at h
      simp only [Option.some_bind] at h
      obtain ⟨a1, a2, a3, a4, a5, a6, a7, a8⟩ := SxRom.prg_storeb_inv s u w.1 w.2 e hw hacc h0 h1 h2
      obtain ⟨b1, b2, b3, b4, b5, b6, b7, b8⟩ := ih u h a1 a2 a3 a4 a5
      exact ⟨b1, b2, b3, b4, b5, by rw [b6, a6], by rw [b7, a7], by rw [b8, a8]⟩

theorem SxRom.prg_storeb_all_defined (ws : List (Nat × Nat)) (s : SxRom)
    (hlen : s._rom.PrgRam.length = 0x2000)
    (hw : s._writeCount ≤ 4) (hacc : s._accumulator < 2 ^ s._writeCount)
    (h0 : s._chrBank0 ≤ 31) (h1 : s._chrBank1 ≤ 31) (h2 : s._prgBank ≤ 15) :
    ∃ t, SxRom.prg_storeb_all s ws = some t := by
  induction ws generalizing s with
  | nil => exact ⟨s, rfl⟩
  | cons w ws ih =>
    obtain ⟨u, e⟩ := SxRom.prg_storeb_defined s w.1 w.2 hlen hw
    obtain ⟨a1, a2, a3, a4, a5, a6, -, -⟩ := SxRom.prg_storeb_inv s u w.1 w.2 e hw hacc h0 h1 h2
    obtain ⟨t, ht⟩ := ih u (by rw [a6, hlen]) a1 a2 a3 a4 a5
    refine ⟨t, ?_⟩
    simp only [SxRom.prg_storeb_all, e, Option.some_bind, ht]

/-- C21: in every SxRom state reached from the constructed state by a sequence of
`prg_storeb` calls, with any addresses and any values, `_writeCount` is at most 4,
`_accumulator` is below `2 ^ _writeCount` (so it is 0 whenever `_writeCount` is 0),
`_chrBank0` and `_chrBank1` are at most 31 and `_prgBank` is at most 15.  A
`prg_storeb` below 0x8000 leaves `_writeCount`, `_accumulator`, the three bank registers,
`_prgSize`, `_chrMode`, `_slotSelect` and `Mirroring` as they were.  On a cartridge with
8 KiB of PRG-RAM every such sequence, and every further store, is defined. -/
theorem SxRom.reachable_invariants (rom : Rom) (ws : List (Nat × Nat)) (s : SxRom)
    (h : SxRom.prg_storeb_all (SxRom.ctor rom) ws = some s) :
    s._writeCount ≤ 4 ∧ s._accumulator < 2 ^ s._writeCount ∧
    (s._writeCount = 0 → s._accumulator = 0) ∧
    s._chrBank0 ≤ 31 ∧ s._chrBank1 ≤ 31 ∧ s._prgBank ≤ 15 ∧
    (∀ a v t, a < 0x8000 → SxRom.prg_storeb s a v = some t →
      t._writeCount = s._writeCount ∧ t._accumulator = s._accumulator ∧
      t._chrBank0 = s._chrBank0 ∧ t._chrBank1 = s._chrBank1 ∧ t._prgBank = s._prgBank ∧
      t._prgSize = s._prgSize ∧ t._chrMode = s._chrMode ∧
      t._slotSelect = s._slotSelect ∧ t.Mirroring = s.Mirroring) ∧
    (rom.PrgRam.length = 0x2000 →
      (∀ ws2, ∃ s2, SxRom.prg_storeb_all (SxRom.ctor rom) ws2 = some s2) ∧
      (∀ a v, ∃ t, SxRom.prg_storeb s a v = some t)) := by
  obtain ⟨a1, a2, a3, a4, a5, a6, -, -⟩ := SxRom.prg_storeb_all_inv ws (SxRom.ctor rom) s h
    (Nat.zero_le _) (by decide : (0 : Nat) < 2 ^ 0) (Nat.zero_le _) (Nat.zero_le _)
    (Nat.zero_le _)
  refine ⟨a1, a2, ?_, a3, a4, a5, ?_, ?_⟩
  · intro hz
    rw [hz] at a2
    omega
  · intro a v t ha ht
    obtain ⟨e, -⟩ := SxRom.prg_storeb_low s t a v ha ht
    subst e
    exact ⟨rfl, rfl, rfl, rfl, rfl, rfl, rfl, rfl, rfl⟩
  · intro hlen
    refine ⟨?_, ?_⟩
    · intro ws2
      exact SxRom.prg_storeb_all_defined ws2 (SxRom.ctor rom) hlen (Nat.zero_le _)
        (by decide : (0 : Nat) < 2 ^ 0) (Nat.zero_le _) (Nat.zero_le _) (Nat.zero_le _)
    · intro a v
      exact SxRom.prg_storeb_defined s a v (by rw [a6]; exact hlen) a1

theorem SxRom.reachable_invariants_witness :
    SxRom.prg_storeb_all (SxRom.ctor (bankRom 8))
        [(0xA000, 0x01), (0xFFFF, 0x80), (0xA000, 0x01), (0xC000, 0x03), (0xE000, 0x7F)] =
      some { SxRom.ctor (bankRom 8) with _accumulator := 7, _writeCount := 3 } ∧
    (7 : Nat) < 2 ^ 3 := by
  have h : SxRom.prg_storeb_all (SxRom.ctor (bankRom 8))
        [(0xA000, 0x01), (0xFFFF, 0x80), (0xA000, 0x01), (0xC000, 0x03), (0xE000, 0x7F)] =
      some { SxRom.ctor (bankRom 8) with _accumulator := 7, _writeCount := 3 } := rfl
  exact ⟨h, (SxRom.reachable_invariants (bankRom 8) _ _ h).2.1⟩

/-- C22: on a cartridge without CHR-ROM the constructor allocates 8 KiB of CHR-RAM, yet
five writes to 0xA000 that shift in the value 2 leave `_chrBank0 = 2`, and then, still in
8 KiB mode, `ChrBufAddress(0)` is 0x2000, one past the end of the buffer: `chr_loadb(0)`
and `chr_storeb(0, v)` index outside the CHR-RAM.  With `_chrBank0 = 31` written the same
way the offset of address 0x1FFF is 0x1FFFF. -/
theorem SxRom.chr_ram_offset_escapes :
    (bankRom 8).Header.ChrRomSize = 0 ∧
    (SxRom.chrBuf (SxRom.ctor (bankRom 8))).length = 0x2000 ∧
    SxRom.prg_storeb_all (SxRom.ctor (bankRom 8))
        [(0xA000, 0x00), (0xA000, 0x01), (0xA000, 0x00), (0xA000, 0x00), (0xA000, 0x00)] =
      some { SxRom.ctor (bankRom 8) with _chrBank0 := 2 } ∧
    (SxRom.chrBuf { SxRom.ctor (bankRom 8) with _chrBank0 := 2 }).length = 0x2000 ∧
    SxRom.ChrBufAddress { SxRom.ctor (bankRom 8) with _chrBank0 := 2 } 0 = 0x2000 ∧
    SxRom.chr_loadb { SxRom.ctor (bankRom 8) with _chrBank0 := 2 } 0 = none ∧
    SxRom.chr_storeb { SxRom.ctor (bankRom 8) with _chrBank0 := 2 } 0 0xAB = none ∧
    SxRom.prg_storeb_all (SxRom.ctor (bankRom 8))
        [(0xA000, 0x01), (0xA000, 0x01), (0xA000, 0x01), (0xA000, 0x01), (0xA000, 0x01)] =
      some { SxRom.ctor (bankRom 8) with _chrBank0 := 31 } ∧
    SxRom.ChrBufAddress { SxRom.ctor (bankRom 8) with _chrBank0 := 31 } 0x1FFF = 0x1FFFF := by
  have hlen := SxRom.ctor_chrRam_length (bankRom 8) rfl
  have hlen2 : (SxRom.chrBuf { SxRom.ctor (bankRom 8) with _chrBank0 := 2 }).length = 0x2000 :=
    hlen
  have hoff : SxRom.ChrBufAddress { SxRom.ctor (bankRom 8) with _chrBank0 := 2 } 0 = 0x2000 := by
    decide
  refine ⟨rfl, hlen, rfl, hlen2, hoff, ?_, ?_, rfl, by decide⟩
  · show (SxRom.chrBuf { SxRom.ctor (bankRom 8) with _chrBank0 := 2 })[
        SxRom.ChrBufAddress { SxRom.ctor (bankRom 8) with _chrBank0 := 2 } 0]? = none
    rw [hoff, List.getElem?_eq_none_iff, hlen2]
  · have n0 : ¬ (bankRom 8).Header.ChrRomSize > 0 := by decide
    have hl : ¬ 0x2000 < (SxRom.ctor (bankRom 8))._chrRam.length := by
      have e : (SxRom.ctor (bankRom 8))._chrRam.length = 0x2000 := by
        simp only [SxRom.ctor, if_neg n0, List.length_replicate]
      rw [e]
      decide
    show (if (bankRom 8).Header.ChrRomSize > 0 then _ else
      (vecStore (SxRom.ctor (bankRom 8))._chrRam
        (SxRom.ChrBufAddress { SxRom.ctor (bankRom 8) with _chrBank0 := 2 } 0) 0xAB).map _) = none
    rw [if_neg n0, hoff, vecStore_out _ _ _ hl]
    rfl

end Nes
